import Mathlib

/-!
Verification development for the imagen-manager service.

Shallow embedding of the core components from the repository's source:
`app/core/semaphore.py` (ConcurrencyManager), `app/core/account_pool.py`
(AccountPool), `app/api/routes.py` (`_generate_with_account_pool` failover),
`app/core/http_generator.py` (length-prefixed frame decoder, auth cookie
selection, prompt validation) and `app/core/video_tasks.py`
(VideoTaskManager lifecycle and persistence).

Machine behaviour that the code delegates to libraries (JSON text
serialisation via orjson/json, asyncio scheduling) is modelled at the
boundary: JSON parsing is an explicit function argument, time is an
explicit `Int` parameter, and the random tie-break index is an explicit
`Nat` argument.
-/

namespace ImagenManager

/-- An HTTPException as raised throughout the service: status code plus the
machine-readable error code and message from the `detail` payload. -/
structure Err where
  status : Nat
  code : String
  message : String
  deriving DecidableEq, Repr

/-! Section: ConcurrencyManager (`app/core/semaphore.py`) -/

/-- State of `ConcurrencyManager`: the asyncio semaphore's internal counter
(`value`, initially `max_concurrent`), the `_active_tasks` counter and the
configured `_max_concurrent` limit. -/
structure ConcurrencyManager where
  value : Nat
  active_tasks : Int
  max_concurrent : Nat
  deriving DecidableEq, Repr

/-- Model of `ConcurrencyManager.__init__`. -/
def ConcurrencyManager.init (max_concurrent : Nat) : ConcurrencyManager :=
  { value := max_concurrent, active_tasks := 0, max_concurrent := max_concurrent }

/-- The 429 error raised by `ConcurrencyManager.acquire`. -/
def rateLimitErr : Err :=
  { status := 429, code := "rate_limit_exceeded", message := "Too many concurrent requests" }

/-- Model of `ConcurrencyManager.acquire`: if the semaphore is `locked()` (counter 0)
raise 429 immediately; otherwise take the (free) semaphore and increment
`_active_tasks`. -/
def ConcurrencyManager.acquire (cm : ConcurrencyManager) : Except Err ConcurrencyManager :=
  if cm.value = 0 then
    .error rateLimitErr
  else
    .ok { cm with value := cm.value - 1, active_tasks := cm.active_tasks + 1 }

/-- Model of `ConcurrencyManager.release`. -/
def ConcurrencyManager.release (cm : ConcurrencyManager) : ConcurrencyManager :=
  { cm with value := cm.value + 1, active_tasks := cm.active_tasks - 1 }

/-- One caller-visible operation on the gate. -/
inductive GateOp where
  | acq
  | rel
  deriving DecidableEq, Repr

/-- Apply one operation; a failed `acquire` leaves the state unchanged. -/
def gateStep (cm : ConcurrencyManager) : GateOp → ConcurrencyManager
  | .acq => match cm.acquire with
    | .ok cm' => cm'
    | .error _ => cm
  | .rel => cm.release

/-- Run a sequence of gate operations from an initial state. -/
def gateRun (cm : ConcurrencyManager) : List GateOp → ConcurrencyManager
  | [] => cm
  | op :: ops => gateRun (gateStep cm op) ops

/-- Number of successful acquires minus releases along a run: the
net count of slot holders created by the trace. -/
def gateHolders (cm : ConcurrencyManager) : List GateOp → Int
  | [] => 0
  | op :: ops =>
    match op with
    | .acq => (if cm.value = 0 then 0 else 1) + gateHolders (gateStep cm .acq) ops
    | .rel => -1 + gateHolders (gateStep cm .rel) ops

/-- A trace is matched when no prefix releases more slots than were
successfully acquired before it: every `release` is issued by a holder. -/
def gateMatched (cm : ConcurrencyManager) : List GateOp → Prop
  | [] => True
  | op :: ops =>
    match op with
    | .acq => gateMatched (gateStep cm .acq) ops
    | .rel => 0 < cm.active_tasks ∧ gateMatched (gateStep cm .rel) ops

lemma gateStep_sum (cm : ConcurrencyManager) (op : GateOp) :
    (gateStep cm op).active_tasks + (gateStep cm op).value = cm.active_tasks + cm.value ∧
      (gateStep cm op).max_concurrent = cm.max_concurrent := by
  cases op with
  | acq =>
    simp only [gateStep, ConcurrencyManager.acquire]
    by_cases h : cm.value = 0
    · simp [h]
    · simp only [h, if_false]
      constructor
      · push_cast [Nat.cast_sub (Nat.one_le_iff_ne_zero.mpr h)]
        ring
      · trivial
  | rel =>
    simp only [gateStep, ConcurrencyManager.release]
    constructor
    · push_cast; ring
    · trivial

/-- Along any matched run the state keeps `active_tasks ≥ 0` and
`active_tasks + value = max_concurrent`. -/
lemma gateRun_invariant (ops : List GateOp) :
    ∀ cm : ConcurrencyManager,
      0 ≤ cm.active_tasks →
      cm.active_tasks + (cm.value : Int) = (cm.max_concurrent : Int) →
      gateMatched cm ops →
      0 ≤ (gateRun cm ops).active_tasks ∧
        (gateRun cm ops).active_tasks + ((gateRun cm ops).value : Int) =
          ((gateRun cm ops).max_concurrent : Int) := by
  induction ops with
  | nil => intro cm h0 hsum _; exact ⟨h0, by simpa using hsum⟩
  | cons op ops ih =>
    intro cm h0 hsum hm
    have hstep := gateStep_sum cm op
    cases op with
    | acq =>
      simp only [gateRun]
      refine ih (gateStep cm .acq) ?_ ?_ hm
      · simp only [gateStep, ConcurrencyManager.acquire]
        by_cases h : cm.value = 0
        · simpa [h] using h0
        · simp only [h, if_false]
          omega
      · omega
    | rel =>
      simp only [gateRun]
      obtain ⟨hpos, hm'⟩ := hm
      refine ih (gateStep cm .rel) ?_ ?_ hm'
      · simp only [gateStep, ConcurrencyManager.release]
        omega
      · omega

/-- A prefix of a matched trace is matched. -/
lemma gateMatched_of_append (pre : List GateOp) :
    ∀ (cm : ConcurrencyManager) (suf : List GateOp),
      gateMatched cm (pre ++ suf) → gateMatched cm pre := by
  induction pre with
  | nil => intro cm suf _; trivial
  | cons op ops ih =>
    intro cm suf h
    cases op with
    | acq => exact ih _ _ h
    | rel => exact ⟨h.1, ih _ _ h.2⟩

/-- Gate runs never change the configured limit. -/
lemma gateRun_max_concurrent (ops : List GateOp) :
    ∀ cm : ConcurrencyManager, (gateRun cm ops).max_concurrent = cm.max_concurrent := by
  induction ops with
  | nil => intro cm; rfl
  | cons op ops ih =>
    intro cm
    rw [gateRun, ih, (gateStep_sum cm op).2]

/-- C6: `ConcurrencyManager.acquire` is all-or-nothing at call time: when the
gate is saturated (semaphore counter 0) it fails immediately with HTTP 429
code `rate_limit_exceeded`; otherwise it takes a slot and increments
`active_tasks`; along any matched trace from a fresh gate, at no instant do
more than `max_concurrent` callers hold a slot; and with limit 1 a second
acquire before the first release fails immediately. -/
theorem C6_concurrency_gate_all_or_nothing :
    (∀ cm : ConcurrencyManager, cm.value = 0 → cm.acquire = .error rateLimitErr) ∧
    rateLimitErr.status = 429 ∧ rateLimitErr.code = "rate_limit_exceeded" ∧
    (∀ cm : ConcurrencyManager, cm.value ≠ 0 →
      cm.acquire = .ok { cm with value := cm.value - 1, active_tasks := cm.active_tasks + 1 }) ∧
    (∀ (n : Nat) (pre suf : List GateOp),
      gateMatched (ConcurrencyManager.init n) (pre ++ suf) →
      0 ≤ (gateRun (ConcurrencyManager.init n) pre).active_tasks ∧
        (gateRun (ConcurrencyManager.init n) pre).active_tasks ≤ (n : Int)) ∧
    ((ConcurrencyManager.init 1).acquire =
        .ok { value := 0, active_tasks := 1, max_concurrent := 1 } ∧
      ConcurrencyManager.acquire { value := 0, active_tasks := 1, max_concurrent := 1 } =
        .error rateLimitErr) := by
  refine ⟨?_, rfl, rfl, ?_, ?_, rfl, rfl⟩
  · intro cm h
    simp [ConcurrencyManager.acquire, h]
  · intro cm h
    simp [ConcurrencyManager.acquire, h]
  · intro n pre suf hm
    have hpre := gateMatched_of_append pre _ suf hm
    have hinv := gateRun_invariant pre (ConcurrencyManager.init n)
      (by simp [ConcurrencyManager.init]) (by simp [ConcurrencyManager.init]) hpre
    obtain ⟨h0, hsum⟩ := hinv
    have hmax : (gateRun (ConcurrencyManager.init n) pre).max_concurrent = n :=
      gateRun_max_concurrent pre (ConcurrencyManager.init n)
    rw [hmax] at hsum
    omega

/-! Section: AccountPool (`app/core/account_pool.py`) -/

/-- Runtime state for one cookies account (`AccountState`). The asyncio
semaphore is modelled by its internal counter `semaphore`, initialised to the
pool's `per_account_concurrent`. -/
structure AccountState where
  account_id : String
  active_tasks : Int
  cooldown_until : Option Int
  last_error : Option String
  enabled : Bool
  semaphore : Nat
  deriving DecidableEq, Repr

/-- Model of `AccountState.in_cooldown`: Python `bool(cooldown_until and cooldown_until
> time.time())`; a stored value of `0` is falsy and counts as no cooldown. -/
def AccountState.in_cooldown (acc : AccountState) (now : Int) : Bool :=
  match acc.cooldown_until with
  | none => false
  | some t => if t ≠ 0 ∧ now < t then true else false

/-- The candidate filter in `AccountPool.acquire`: enabled, cooldown absent or
elapsed (`cooldown_until is None or cooldown_until <= now`), and the account
semaphore not `locked()` (counter nonzero). -/
def AccountState.selectable (acc : AccountState) (now : Int) : Bool :=
  acc.enabled &&
    (match acc.cooldown_until with
      | none => true
      | some t => decide (t ≤ now)) &&
    !(acc.semaphore == 0)

/-- The whole pool: the configured per-account concurrency and the accounts
(dict values in registration order). -/
structure AccountPool where
  per_account_concurrent : Nat
  accounts : List AccountState
  deriving DecidableEq, Repr

/-- 503 raised by `AccountPool.acquire` when every enabled account is cooling
down. -/
def accountsUnavailableErr : Err :=
  { status := 503, code := "accounts_unavailable",
    message := "All cookie accounts are temporarily unavailable" }

/-- 429 raised by `AccountPool.acquire` when accounts are merely saturated. -/
def accountsBusyErr : Err :=
  { status := 429, code := "accounts_busy", message := "All cookie accounts are busy" }

/-- Model of `min(acc.active_tasks for acc in candidates)`. -/
def minActive (candidates : List AccountState) : Int :=
  match (candidates.map (fun a => a.active_tasks)).min? with
  | some m => m
  | none => 0

/-- Placeholder only used by `List.getD` at an in-bounds index. -/
def dummyAccount : AccountState :=
  { account_id := "", active_tasks := 0, cooldown_until := none, last_error := none,
    enabled := false, semaphore := 0 }

/-- Model of `AccountPool.acquire`: filter candidates, classify the failure when none
exists, otherwise pick uniformly (the random draw is the explicit index
`pick`) among the least-active candidates, take its semaphore and increment
its `active_tasks`. -/
def AccountPool.acquire (pool : AccountPool) (now : Int) (pick : Nat) :
    Except Err (String × AccountPool) :=
  let candidates := pool.accounts.filter (fun a => a.selectable now)
  if candidates = [] then
    if (pool.accounts.filter (fun a => a.enabled)).any (fun a => a.in_cooldown now) then
      .error accountsUnavailableErr
    else
      .error accountsBusyErr
  else
    let min_tasks := minActive candidates
    let least_active := candidates.filter (fun a => a.active_tasks == min_tasks)
    let selected := least_active.getD (pick % least_active.length) dummyAccount
    .ok (selected.account_id,
      { pool with
        accounts := pool.accounts.map (fun a =>
          if a.account_id = selected.account_id then
            { a with semaphore := a.semaphore - 1, active_tasks := a.active_tasks + 1 }
          else a) })

/-- Model of `AccountPool.release`: no-op when the lease's account id is unknown,
otherwise give the semaphore back and decrement `active_tasks` flooring at
zero (`max(0, active_tasks - 1)`). -/
def AccountPool.release (pool : AccountPool) (lease_id : String) : AccountPool :=
  if pool.accounts.all (fun a => a.account_id ≠ lease_id) then pool
  else
    { pool with
      accounts := pool.accounts.map (fun a =>
        if a.account_id = lease_id then
          { a with semaphore := a.semaphore + 1, active_tasks := max 0 (a.active_tasks - 1) }
        else a) }

/-- Model of `AccountPool.mark_cooldown`: no-op when the account id is unknown,
otherwise set `cooldown_until = now + max(1, seconds)` and record the
reason. -/
def AccountPool.mark_cooldown (pool : AccountPool) (account_id : String)
    (now seconds : Int) (reason : Option String) : AccountPool :=
  if pool.accounts.all (fun a => a.account_id ≠ account_id) then pool
  else
    { pool with
      accounts := pool.accounts.map (fun a =>
        if a.account_id = account_id then
          { a with cooldown_until := some (now + max 1 seconds), last_error := reason }
        else a) }

/-- Caller-visible pool operations for interleaving traces. -/
inductive PoolOp where
  | acq (now : Int) (pick : Nat)
  | rel (lease_id : String)
  deriving DecidableEq, Repr

/-- Apply one pool operation; a failed acquire leaves the pool unchanged. -/
def poolStep (pool : AccountPool) : PoolOp → AccountPool
  | .acq now pick =>
    match pool.acquire now pick with
    | .ok r => r.2
    | .error _ => pool
  | .rel lease_id => pool.release lease_id

/-- Run a sequence of pool operations. -/
def poolRun (pool : AccountPool) : List PoolOp → AccountPool
  | [] => pool
  | op :: ops => poolRun (poolStep pool op) ops

lemma minActive_spec (c : List AccountState) (hne : c ≠ []) :
    (∃ a ∈ c, a.active_tasks = minActive c) ∧ ∀ a ∈ c, minActive c ≤ a.active_tasks := by
  have hmap : (c.map (fun a => a.active_tasks)) ≠ [] := by
    simpa using hne
  obtain ⟨m, hm⟩ : ∃ m, (c.map (fun a => a.active_tasks)).min? = some m := by
    cases h : (c.map (fun a => a.active_tasks)).min? with
    | none => exact absurd (List.min?_eq_none_iff.mp h) hmap
    | some m => exact ⟨m, rfl⟩
  have hval : minActive c = m := by simp [minActive, hm]
  have hmem := List.min?_mem (fun a b => min_choice a b) hm
  obtain ⟨a, ha, hav⟩ := List.mem_map.mp hmem
  have hle := (List.le_min?_iff (fun a b c => le_min_iff) hm).mp (le_refl m)
  refine ⟨⟨a, ha, by rw [hav, hval]⟩, ?_⟩
  intro b hb
  rw [hval]
  exact hle _ (List.mem_map_of_mem _ hb)

/-- Characterisation of a successful `AccountPool.acquire`: the returned id
belongs to a candidate (enabled, cooldown elapsed, semaphore free) of minimum
`active_tasks`, and the new pool increments exactly that id. -/
lemma acquire_ok_selected {pool : AccountPool} {now : Int} {pick : Nat}
    {id : String} {pool' : AccountPool}
    (h : pool.acquire now pick = .ok (id, pool')) :
    ∃ a ∈ pool.accounts, a.selectable now = true ∧ a.account_id = id ∧
      a.active_tasks = minActive (pool.accounts.filter (fun x => x.selectable now)) ∧
      pool' = { pool with
        accounts := pool.accounts.map (fun x =>
          if x.account_id = id then
            { x with semaphore := x.semaphore - 1, active_tasks := x.active_tasks + 1 }
          else x) } := by
  unfold AccountPool.acquire at h
  set candidates := pool.accounts.filter (fun a => a.selectable now) with hcand
  by_cases hc : candidates = []
  · rw [if_pos hc] at h
    split at h <;> simp at h
  · rw [if_neg hc] at h
    set min_tasks := minActive candidates with hmin
    set least_active := candidates.filter (fun a => a.active_tasks == min_tasks) with hleast
    have hlne : least_active ≠ [] := by
      obtain ⟨⟨a, ha, hav⟩, -⟩ := minActive_spec candidates hc
      have : a ∈ least_active := by
        rw [hleast]
        exact List.mem_filter.mpr ⟨ha, by simpa using hav⟩
      intro hnil
      rw [hnil] at this
      exact absurd this (List.not_mem_nil a)
    have hlen : 0 < least_active.length := List.length_pos.mpr hlne
    have hidx : pick % least_active.length < least_active.length := Nat.mod_lt _ hlen
    set selected := least_active.getD (pick % least_active.length) dummyAccount with hseley
    have hselmem : selected ∈ least_active := by
      rw [hseley, List.getD_eq_getElem _ _ hidx]
      exact List.getElem_mem hidx
    have hsel2 := List.mem_filter.mp (hleast ▸ hselmem)
    have hselc : selected ∈ candidates := hsel2.1
    have hselmin : selected.active_tasks = min_tasks := by
      have := hsel2.2
      simpa using this
    have hselp := List.mem_filter.mp (hcand ▸ hselc)
    simp only [Except.ok.injEq, Prod.mk.injEq] at h
    obtain ⟨hid, hpool⟩ := h
    exact ⟨selected, hselp.1, hselp.2, hid, hselmin, by rw [← hpool, ← hid]⟩

/-- Lemma: `acquire` succeeds whenever at least one candidate exists. -/
lemma acquire_ok_of_candidate {pool : AccountPool} {now : Int}
    (hc : pool.accounts.filter (fun a => a.selectable now) ≠ []) (pick : Nat) :
    ∃ (id : String) (pool' : AccountPool), pool.acquire now pick = .ok (id, pool') := by
  unfold AccountPool.acquire
  rw [if_neg hc]
  exact ⟨_, _, rfl⟩

/-- C2: `AccountPool.acquire` selects only accounts that are enabled, out of
cooldown (`cooldown_until` absent or `≤ now`) and whose semaphore is free —
hence below the per-account concurrency limit whenever semaphore and
`active_tasks` are in sync; `mark_cooldown id s` stores
`marking time + max 1 s` and while `now` is before that instant `acquire`
never returns `id`; and when no candidate exists the failure is the 503
`accounts_unavailable` error if some enabled account is in cooldown and the
429 `accounts_busy` error otherwise. -/
theorem C2_acquire_selectability_and_failures :
    (∀ (pool : AccountPool) (now : Int) (pick : Nat) (id : String) (pool' : AccountPool),
      pool.acquire now pick = .ok (id, pool') →
      ∃ a ∈ pool.accounts, a.account_id = id ∧ a.enabled = true ∧
        (a.cooldown_until = none ∨ ∃ t, a.cooldown_until = some t ∧ t ≤ now) ∧
        a.semaphore ≠ 0 ∧
        ((∀ b ∈ pool.accounts,
            b.active_tasks + (b.semaphore : Int) = (pool.per_account_concurrent : Int)) →
          a.active_tasks < (pool.per_account_concurrent : Int))) ∧
    (∀ (pool : AccountPool) (id : String) (tmark seconds : Int) (reason : Option String),
      (∀ a ∈ (pool.mark_cooldown id tmark seconds reason).accounts,
        a.account_id = id → a.cooldown_until = some (tmark + max 1 seconds)) ∧
      (∀ (now : Int) (pick : Nat) (id' : String) (pool' : AccountPool),
        now < tmark + max 1 seconds →
        (pool.mark_cooldown id tmark seconds reason).acquire now pick = .ok (id', pool') →
        id' ≠ id)) ∧
    (∀ (pool : AccountPool) (now : Int) (pick : Nat),
      pool.accounts.filter (fun a => a.selectable now) = [] →
      pool.acquire now pick =
        .error (if (pool.accounts.filter (fun a => a.enabled)).any (fun a => a.in_cooldown now)
          then accountsUnavailableErr else accountsBusyErr)) ∧
    accountsUnavailableErr.status = 503 ∧ accountsUnavailableErr.code = "accounts_unavailable" ∧
    accountsBusyErr.status = 429 ∧ accountsBusyErr.code = "accounts_busy" := by
  have markLem : ∀ (pool : AccountPool) (id : String) (tmark seconds : Int)
      (reason : Option String),
      ∀ a ∈ (pool.mark_cooldown id tmark seconds reason).accounts,
        a.account_id = id → a.cooldown_until = some (tmark + max 1 seconds) := by
    intro pool id tmark seconds reason a ha haid
    unfold AccountPool.mark_cooldown at ha
    by_cases hall : pool.accounts.all (fun a => a.account_id ≠ id)
    · rw [if_pos hall] at ha
      have := List.all_eq_true.mp hall a ha
      simp only [decide_eq_true_eq] at this
      exact absurd haid this
    · rw [if_neg hall] at ha
      simp only [List.mem_map] at ha
      obtain ⟨b, hb, hba⟩ := ha
      by_cases hbid : b.account_id = id
      · rw [if_pos hbid] at hba
        rw [← hba]
      · rw [if_neg hbid] at hba
        rw [← hba] at haid
        exact absurd haid hbid
  refine ⟨?_, ?_, ?_, rfl, rfl, rfl, rfl⟩
  · intro pool now pick id pool' h
    obtain ⟨a, ha, hasel, haid, -, -⟩ := acquire_ok_selected h
    simp only [AccountState.selectable, Bool.and_eq_true, Bool.not_eq_true',
      beq_eq_false_iff_ne] at hasel
    refine ⟨a, ha, haid, hasel.1.1, ?_, hasel.2, ?_⟩
    · cases hcd : a.cooldown_until with
      | none => exact Or.inl rfl
      | some t =>
        right
        refine ⟨t, rfl, ?_⟩
        have := hasel.1.2
        rw [hcd] at this
        exact of_decide_eq_true this
    · intro hsync
      have := hsync a ha
      have hsem : a.semaphore ≠ 0 := hasel.2
      omega
  · intro pool id tmark seconds reason
    refine ⟨markLem pool id tmark seconds reason, ?_⟩
    intro now pick id' pool' hnow h hid
    obtain ⟨a, ha, hasel, haid, -, -⟩ := acquire_ok_selected h
    have hcd := markLem pool id tmark seconds reason a ha (by rw [haid, hid])
    simp only [AccountState.selectable, hcd, Bool.and_eq_true] at hasel
    have := of_decide_eq_true hasel.1.2
    omega
  · intro pool now pick hempty
    unfold AccountPool.acquire
    rw [if_pos hempty]
    split <;> simp_all

lemma poolStep_nonneg (pool : AccountPool) (op : PoolOp)
    (h : ∀ a ∈ pool.accounts, 0 ≤ a.active_tasks) :
    ∀ a ∈ (poolStep pool op).accounts, 0 ≤ a.active_tasks := by
  cases op with
  | acq now pick =>
    simp only [poolStep]
    cases hacq : pool.acquire now pick with
    | error e => exact h
    | ok r =>
      obtain ⟨a, -, -, -, -, hpool⟩ := @acquire_ok_selected pool now pick r.1 r.2
        (by rw [hacq])
      show ∀ a ∈ r.2.accounts, 0 ≤ a.active_tasks
      rw [hpool]
      intro b hb
      simp only [List.mem_map] at hb
      obtain ⟨c, hc, hcb⟩ := hb
      by_cases hcid : c.account_id = r.1
      · rw [if_pos hcid] at hcb
        rw [← hcb]
        show 0 ≤ c.active_tasks + 1
        have := h c hc
        omega
      · rw [if_neg hcid] at hcb
        exact hcb ▸ h c hc
  | rel lease_id =>
    simp only [poolStep, AccountPool.release]
    split
    · exact h
    · intro b hb
      simp only [List.mem_map] at hb
      obtain ⟨c, hc, hcb⟩ := hb
      by_cases hcid : c.account_id = lease_id
      · rw [if_pos hcid] at hcb
        rw [← hcb]
        simp
      · rw [if_neg hcid] at hcb
        exact hcb ▸ h c hc

/-- C9: `AccountPool.release` is a total no-op on an unknown account id, and
along every interleaving of `acquire`/`release` operations (unmatched
releases included) every account's `active_tasks` stays nonnegative — the
decrement floors at zero. -/
theorem C9_release_noop_and_nonnegative_active :
    (∀ (pool : AccountPool) (lease_id : String),
      (∀ a ∈ pool.accounts, a.account_id ≠ lease_id) → pool.release lease_id = pool) ∧
    (∀ (pool : AccountPool) (lease_id : String),
      ∀ a ∈ (pool.release lease_id).accounts, a.account_id = lease_id →
        ∃ b ∈ pool.accounts, b.account_id = lease_id ∧
          a.active_tasks = max 0 (b.active_tasks - 1)) ∧
    (∀ (ops : List PoolOp) (pool : AccountPool),
      (∀ a ∈ pool.accounts, 0 ≤ a.active_tasks) →
      ∀ a ∈ (poolRun pool ops).accounts, 0 ≤ a.active_tasks) := by
  refine ⟨?_, ?_, ?_⟩
  · intro pool lease_id h
    unfold AccountPool.release
    rw [if_pos]
    exact List.all_eq_true.mpr fun a ha => by simpa using h a ha
  · intro pool lease_id a ha haid
    unfold AccountPool.release at ha
    split at ha
    · rename_i hall
      have := List.all_eq_true.mp hall a ha
      simp only [decide_eq_true_eq] at this
      exact absurd haid this
    · simp only [List.mem_map] at ha
      obtain ⟨b, hb, hba⟩ := ha
      by_cases hbid : b.account_id = lease_id
      · rw [if_pos hbid] at hba
        exact ⟨b, hb, hbid, by rw [← hba]⟩
      · rw [if_neg hbid] at hba
        rw [← hba] at haid
        exact absurd haid hbid
  · intro ops
    induction ops with
    | nil => intro pool h; exact h
    | cons op ops ih =>
      intro pool h
      exact ih (poolStep pool op) (poolStep_nonneg pool op h)

/-- C8: with distinct account ids, a pool whose accounts are all enabled,
uncooled and unsaturated, a first successful `acquire`, and — as the claim
conditions it — the first lease's account strictly more loaded afterwards
than some other account, a second `acquire` with no intervening `release`
succeeds and never returns the first account id, for every outcome `pick2` of
the uniform-random tie-break. -/
theorem C8_sequential_acquires_never_repeat
    (pool : AccountPool) (now : Int) (pick1 : Nat) (id1 : String) (pool' : AccountPool)
    (hnodup : (pool.accounts.map (fun a => a.account_id)).Nodup)
    (hsel : ∀ a ∈ pool.accounts,
      a.enabled = true ∧ a.cooldown_until = none ∧ a.semaphore ≠ 0)
    (hfirst : pool.acquire now pick1 = .ok (id1, pool'))
    (hraise : ∃ a' ∈ pool'.accounts, ∃ b' ∈ pool'.accounts,
      a'.account_id = id1 ∧ b'.account_id ≠ id1 ∧ b'.active_tasks < a'.active_tasks) :
    ∀ pick2 : Nat, ∃ (id2 : String) (pool'' : AccountPool),
      pool'.acquire now pick2 = .ok (id2, pool'') ∧ id2 ≠ id1 := by
  intro pick2
  obtain ⟨a', ha', b', hb', haid, hbid, hlt⟩ := hraise
  obtain ⟨s1, -, -, -, -, hpool'⟩ := acquire_ok_selected hfirst
  -- accounts of pool' are mapped originals: ids unchanged, and accounts other
  -- than id1 are untouched
  have hmapid : ∀ x ∈ pool'.accounts, ∃ y ∈ pool.accounts, y.account_id = x.account_id ∧
      (x.account_id ≠ id1 → x = y) := by
    intro x hx
    rw [hpool'] at hx
    simp only [List.mem_map] at hx
    obtain ⟨y, hy, hyx⟩ := hx
    by_cases hyid : y.account_id = id1
    · rw [if_pos hyid] at hyx
      exact ⟨y, hy, by rw [← hyx], fun hne => absurd (by rw [← hyx]; exact hyid) hne⟩
    · rw [if_neg hyid] at hyx
      exact ⟨y, hy, by rw [← hyx], fun _ => hyx.symm⟩
  -- b' is selectable in pool'
  have hbsel : b'.selectable now = true := by
    obtain ⟨y, hy, hyid, hyeq⟩ := hmapid b' hb'
    have hb'y : b' = y := hyeq hbid
    obtain ⟨he, hcd, hsem⟩ := hsel y hy
    subst hb'y
    simp [AccountState.selectable, he, hcd, hsem]
  have hcand : b' ∈ pool'.accounts.filter (fun a => a.selectable now) :=
    List.mem_filter.mpr ⟨hb', hbsel⟩
  have hcne : pool'.accounts.filter (fun a => a.selectable now) ≠ [] := by
    intro hnil
    rw [hnil] at hcand
    exact absurd hcand (List.not_mem_nil b')
  obtain ⟨id2, pool'', hacq2⟩ := acquire_ok_of_candidate hcne pick2
  refine ⟨id2, pool'', hacq2, ?_⟩
  intro hid2
  obtain ⟨s2, hs2, hs2sel, hs2id, hs2min, -⟩ := acquire_ok_selected hacq2
  -- pool' keeps distinct ids, so the selected account with id id1 is a'
  have hnodup' : (pool'.accounts.map (fun a => a.account_id)).Nodup := by
    rw [hpool']
    have : (pool.accounts.map (fun x =>
        if x.account_id = id1 then
          { x with semaphore := x.semaphore - 1, active_tasks := x.active_tasks + 1 }
        else x)).map (fun a => a.account_id) = pool.accounts.map (fun a => a.account_id) := by
      rw [List.map_map]
      refine List.map_congr_left ?_
      intro x hx
      by_cases hxid : x.account_id = id1 <;> simp [hxid]
    simpa [this] using hnodup
  have hs2a : s2 = a' := by
    refine List.inj_on_of_nodup_map hnodup' hs2 ha' ?_
    rw [hs2id, hid2, haid]
  -- minimality contradicts the strict raise
  have hmin := (minActive_spec _ hcne).2 b' hcand
  rw [← hs2min, hs2a] at hmin
  omega

/-- Concrete instance of the C8 theorem: two fresh accounts, the first
acquire returns account `a`, the second never does. -/
theorem C8_sequential_acquires_never_repeat_witness :
    ∃ (id2 : String) (pool'' : AccountPool),
      AccountPool.acquire
        { per_account_concurrent := 1,
          accounts := [
            { account_id := "a", active_tasks := 1, cooldown_until := none,
              last_error := none, enabled := true, semaphore := 0 },
            { account_id := "b", active_tasks := 0, cooldown_until := none,
              last_error := none, enabled := true, semaphore := 1 }] } 0 0 =
        .ok (id2, pool'') ∧ id2 ≠ "a" :=
  C8_sequential_acquires_never_repeat
    { per_account_concurrent := 1,
      accounts := [
        { account_id := "a", active_tasks := 0, cooldown_until := none,
          last_error := none, enabled := true, semaphore := 1 },
        { account_id := "b", active_tasks := 0, cooldown_until := none,
          last_error := none, enabled := true, semaphore := 1 }] }
    0 0 "a"
    { per_account_concurrent := 1,
      accounts := [
        { account_id := "a", active_tasks := 1, cooldown_until := none,
          last_error := none, enabled := true, semaphore := 0 },
        { account_id := "b", active_tasks := 0, cooldown_until := none,
          last_error := none, enabled := true, semaphore := 1 }] }
    (by decide) (by decide) rfl
    ⟨{ account_id := "a", active_tasks := 1, cooldown_until := none,
        last_error := none, enabled := true, semaphore := 0 },
      by decide,
      { account_id := "b", active_tasks := 0, cooldown_until := none,
        last_error := none, enabled := true, semaphore := 1 },
      by decide, rfl, by decide, by decide⟩
    0

/-! Section: Failover orchestration (`app/api/routes.py`, `_generate_with_account_pool`) -/

/-- Model of `_is_cookies_expired_error`: the error's machine code is
`cookies_expired`. -/
def isCookiesExpiredError (e : Err) : Bool := e.code == "cookies_expired"

/-- The 503 raised by `_generate_with_account_pool` before the loop when
`stats["accounts_available"] == 0`. -/
def noAvailableAtStartErr : Err :=
  { status := 503, code := "accounts_unavailable",
    message := "No available cookie account. All accounts are either busy or in cooldown." }

/-- The 503 raised after the loop when no attempt produced a result and no
`AuthExpired` error was recorded. -/
def noAccountErr : Err :=
  { status := 503, code := "accounts_unavailable", message := "No available cookie account" }

/-- What one loop iteration observes: either `AccountPool.acquire` raised, or
a lease on `account_id` was obtained and the backend `generate` call on it
returned (`ok`) or raised the given error. -/
inductive StepOutcome where
  | acquireFail
  | leased (account_id : String) (result : Except Err Unit)
  deriving Repr

/-- Result of the failover loop: the propagated outcome, the account ids
marked into cooldown (in order), and the number of loop iterations
entered. -/
structure FailoverResult where
  outcome : Except Err Unit
  cooldowns : List String
  attempts : Nat
  deriving Repr

/-- Model of `if last_error: raise last_error; raise <accounts_unavailable>` after the
loop. -/
def finishFailover : Option Err → Except Err Unit
  | some e => .error e
  | none => .error noAccountErr

/-- The loop of `_generate_with_account_pool` over a trace of per-iteration
backend outcomes, carrying the `tried_accounts` set and `last_error`. An
acquire failure or a lease on an already-tried account breaks the loop; a
success returns; a `cookies_expired` failure marks that account's cooldown
and continues; any other failure propagates at once. -/
def runFailover : List StepOutcome → List String → Option Err → FailoverResult
  | [], _, last => ⟨finishFailover last, [], 0⟩
  | step :: rest, tried, last =>
    match step with
    | .acquireFail => ⟨finishFailover last, [], 1⟩
    | .leased id res =>
      if id ∈ tried then ⟨finishFailover last, [], 1⟩
      else
        match res with
        | .ok _ => ⟨.ok (), [], 1⟩
        | .error e =>
          if isCookiesExpiredError e then
            ⟨(runFailover rest (id :: tried) (some e)).outcome,
              id :: (runFailover rest (id :: tried) (some e)).cooldowns,
              (runFailover rest (id :: tried) (some e)).attempts + 1⟩
          else
            ⟨.error e, [], 1⟩

/-- Model of `_generate_with_account_pool`: fail fast when no account is available,
else run at most `accounts_total` loop iterations. -/
def generate_with_account_pool (accounts_available accounts_total : Nat)
    (trace : List StepOutcome) : FailoverResult :=
  if accounts_available = 0 then ⟨.error noAvailableAtStartErr, [], 0⟩
  else runFailover (trace.take accounts_total) [] none

lemma failover_attempts_le (trace : List StepOutcome) :
    ∀ tried last, (runFailover trace tried last).attempts ≤ trace.length := by
  induction trace with
  | nil => intro tried last; exact Nat.le_refl 0
  | cons step rest ih =>
    intro tried last
    cases step with
    | acquireFail =>
      show 1 ≤ rest.length + 1
      omega
    | leased id res =>
      simp only [runFailover]
      by_cases hid : id ∈ tried
      · rw [if_pos hid]
        show 1 ≤ rest.length + 1
        omega
      · rw [if_neg hid]
        cases res with
        | ok _ =>
          show 1 ≤ rest.length + 1
          omega
        | error e =>
          by_cases he : isCookiesExpiredError e
          · simp only [he, if_true]
            show (runFailover rest (id :: tried) (some e)).attempts + 1 ≤ rest.length + 1
            have := ih (id :: tried) (some e)
            omega
          · simp only [he, if_false]
            show 1 ≤ rest.length + 1
            omega

lemma failover_cooldowns_sound (trace : List StepOutcome) :
    ∀ tried last, ∀ id ∈ (runFailover trace tried last).cooldowns,
      ∃ e, StepOutcome.leased id (.error e) ∈ trace ∧ isCookiesExpiredError e = true := by
  induction trace with
  | nil => intro tried last id h; simp [runFailover] at h
  | cons step rest ih =>
    intro tried last id h
    cases step with
    | acquireFail =>
      exact absurd h (List.not_mem_nil id)
    | leased id' res =>
      simp only [runFailover] at h
      by_cases hid : id' ∈ tried
      · rw [if_pos hid] at h
        exact absurd h (List.not_mem_nil id)
      · rw [if_neg hid] at h
        cases res with
        | ok _ => exact absurd h (List.not_mem_nil id)
        | error e =>
          by_cases he : isCookiesExpiredError e
          · simp only [he, if_true] at h
            have h' : id = id' ∨
                id ∈ (runFailover rest (id' :: tried) (some e)).cooldowns :=
              List.mem_cons.mp h
            cases h' with
            | inl h' =>
              exact ⟨e, by rw [h']; exact List.mem_cons_self _ _, he⟩
            | inr h' =>
              obtain ⟨e', hmem, he'⟩ := ih (id' :: tried) (some e) id h'
              exact ⟨e', List.mem_cons_of_mem _ hmem, he'⟩
          · simp only [he, if_false] at h
            exact absurd h (List.not_mem_nil id)

lemma finishFailover_ne_ok (last : Option Err) : finishFailover last ≠ .ok () := by
  cases last <;> exact fun h => Except.noConfusion h

lemma failover_ok_sound (trace : List StepOutcome) :
    ∀ tried last, (runFailover trace tried last).outcome = .ok () →
      ∃ id, StepOutcome.leased id (.ok ()) ∈ trace := by
  induction trace with
  | nil =>
    intro tried last h
    exact absurd h (finishFailover_ne_ok last)
  | cons step rest ih =>
    intro tried last h
    cases step with
    | acquireFail =>
      exact absurd h (finishFailover_ne_ok last)
    | leased id res =>
      simp only [runFailover] at h
      by_cases hid : id ∈ tried
      · rw [if_pos hid] at h
        exact absurd h (finishFailover_ne_ok last)
      · rw [if_neg hid] at h
        cases res with
        | ok u =>
          exact ⟨id, by cases u; exact List.mem_cons_self _ _⟩
        | error e =>
          by_cases he : isCookiesExpiredError e
          · simp only [he, if_true] at h
            obtain ⟨id', hmem⟩ := ih (id :: tried) (some e) h
            exact ⟨id', List.mem_cons_of_mem _ hmem⟩
          · simp only [he, if_false] at h
            exact absurd h (fun h' => Except.noConfusion h')

lemma finishFailover_error (last : Option Err) (e : Err)
    (h : finishFailover last = .error e) : e = noAccountErr ∨ last = some e := by
  cases last with
  | none =>
    left
    have : Except.error (α := Unit) noAccountErr = .error e := h
    injection this with h'
    exact h'.symm
  | some e' =>
    right
    have : Except.error (α := Unit) e' = .error e := h
    injection this with h'
    rw [h']

lemma failover_error_sound (trace : List StepOutcome) :
    ∀ tried last e, (runFailover trace tried last).outcome = .error e →
      e = noAccountErr ∨ last = some e ∨
        ∃ id, StepOutcome.leased id (.error e) ∈ trace := by
  induction trace with
  | nil =>
    intro tried last e h
    rcases finishFailover_error last e h with h' | h'
    · exact Or.inl h'
    · exact Or.inr (Or.inl h')
  | cons step rest ih =>
    intro tried last e h
    cases step with
    | acquireFail =>
      rcases finishFailover_error last e h with h' | h'
      · exact Or.inl h'
      · exact Or.inr (Or.inl h')
    | leased id res =>
      simp only [runFailover] at h
      by_cases hid : id ∈ tried
      · rw [if_pos hid] at h
        rcases finishFailover_error last e h with h' | h'
        · exact Or.inl h'
        · exact Or.inr (Or.inl h')
      · rw [if_neg hid] at h
        cases res with
        | ok _ => exact absurd h (fun h' => Except.noConfusion h')
        | error e' =>
          by_cases he : isCookiesExpiredError e'
          · simp only [he, if_true] at h
            rcases ih (id :: tried) (some e') e h with h1 | h2 | h3
            · exact Or.inl h1
            · right; right
              refine ⟨id, ?_⟩
              have he'e : e' = e := by injection h2
              rw [← he'e]
              exact List.mem_cons_self _ _
            · obtain ⟨id', hmem⟩ := h3
              exact Or.inr (Or.inr ⟨id', List.mem_cons_of_mem _ hmem⟩)
          · simp only [he, if_false] at h
            right; right
            refine ⟨id, ?_⟩
            have he'e : e' = e := by
              have : Except.error (α := Unit) e' = .error e := h
              injection this
            rw [← he'e]
            exact List.mem_cons_self _ _

/-- Characterisation of a fully exhausted run: a trace of distinct,
previously untried accounts each failing with a `cookies_expired` error
marks every one of them into cooldown and re-raises the last such error
(or the `accounts_unavailable` fallback when the trace is empty). -/
lemma failover_all_auth (steps : List (String × Err)) :
    ∀ tried last,
      (∀ p ∈ steps, isCookiesExpiredError p.2 = true) →
      ((steps.map Prod.fst) ++ tried).Nodup →
      runFailover (steps.map (fun p => .leased p.1 (.error p.2))) tried last =
        ⟨(match steps.getLast? with
          | some p => .error p.2
          | none => finishFailover last),
         steps.map Prod.fst, steps.length⟩ := by
  induction steps with
  | nil =>
    intro tried last _ _
    simp [runFailover]
  | cons p rest ih =>
    intro tried last hauth hnodup
    have h1 : (p.1 :: (rest.map Prod.fst ++ tried)).Nodup := by
      rw [List.map_cons, List.cons_append] at hnodup
      exact hnodup
    have h2 := List.nodup_cons.mp h1
    have h3 := List.nodup_append.mp h2.2
    have hnotin : p.1 ∉ tried := fun hmem => h2.1 (List.mem_append_right _ hmem)
    have hp := hauth p (List.mem_cons_self _ _)
    have hrest : ((rest.map Prod.fst) ++ (p.1 :: tried)).Nodup := by
      rw [List.nodup_append]
      refine ⟨h3.1, ?_, ?_⟩
      · exact List.nodup_cons.mpr ⟨hnotin, h3.2.1⟩
      · intro a ha hb
        cases List.mem_cons.mp hb with
        | inl hb' => exact h2.1 (hb' ▸ List.mem_append_left _ ha)
        | inr hb' => exact h3.2.2 ha hb'
    simp only [List.map_cons, runFailover]
    rw [if_neg hnotin]
    simp only [hp, if_true]
    rw [ih (p.1 :: tried) (some p.2) (fun q hq => hauth q (List.mem_cons_of_mem _ hq)) hrest]
    cases rest with
    | nil => simp [finishFailover]
    | cons x xs =>
      cases hgl : (x :: xs).getLast? with
      | none => simp [List.getLast?_eq_none_iff] at hgl
      | some q => simp [List.getLast?_cons_cons, hgl]

/-- C1: the generate-with-failover loop makes at most `accounts_total`
attempts and stops early on a repeated lease; a `cookies_expired`
(AuthExpired) failure from the leased backend marks exactly that account's
cooldown and continues; every other failure propagates immediately without
marking a cooldown and without further attempts; exhausting the attempts
re-raises the last AuthExpired failure; and when no attempt was possible the
outcome is an `accounts_unavailable` failure (both at the entry gate and
after a loop that never leased). -/
theorem C1_failover_policy :
    (∀ (avail total : Nat) (trace : List StepOutcome),
      (generate_with_account_pool avail total trace).attempts ≤ total) ∧
    (∀ (trace : List StepOutcome) (tried : List String) (last : Option Err),
      ∀ id ∈ (runFailover trace tried last).cooldowns,
        ∃ e, StepOutcome.leased id (.error e) ∈ trace ∧ isCookiesExpiredError e = true) ∧
    (∀ (trace : List StepOutcome) (tried : List String) (last : Option Err),
      (runFailover trace tried last).outcome = .ok () →
        ∃ id, StepOutcome.leased id (.ok ()) ∈ trace) ∧
    (∀ (trace : List StepOutcome) (e : Err),
      (runFailover trace [] none).outcome = .error e →
        e = noAccountErr ∨ ∃ id, StepOutcome.leased id (.error e) ∈ trace) ∧
    (∀ (id : String) (e : Err) (rest : List StepOutcome) (tried : List String)
        (last : Option Err), id ∉ tried → isCookiesExpiredError e = false →
      runFailover (.leased id (.error e) :: rest) tried last = ⟨.error e, [], 1⟩) ∧
    (∀ (id : String) (e : Err) (rest : List StepOutcome) (tried : List String)
        (last : Option Err), id ∉ tried → isCookiesExpiredError e = true →
      runFailover (.leased id (.error e) :: rest) tried last =
        ⟨(runFailover rest (id :: tried) (some e)).outcome,
          id :: (runFailover rest (id :: tried) (some e)).cooldowns,
          (runFailover rest (id :: tried) (some e)).attempts + 1⟩) ∧
    (∀ (id : String) (res : Except Err Unit) (rest : List StepOutcome)
        (tried : List String) (last : Option Err), id ∈ tried →
      runFailover (.leased id res :: rest) tried last = ⟨finishFailover last, [], 1⟩) ∧
    (∀ (tried : List String) (e : Err),
      runFailover [] tried (some e) = ⟨.error e, [], 0⟩) ∧
    (∀ tried : List String, runFailover [] tried none = ⟨.error noAccountErr, [], 0⟩) ∧
    (∀ (total : Nat) (trace : List StepOutcome),
      generate_with_account_pool 0 total trace = ⟨.error noAvailableAtStartErr, [], 0⟩) ∧
    (∀ (steps : List (String × Err)) (tried : List String) (last : Option Err),
      (∀ p ∈ steps, isCookiesExpiredError p.2 = true) →
      ((steps.map Prod.fst) ++ tried).Nodup →
      runFailover (steps.map (fun p => .leased p.1 (.error p.2))) tried last =
        ⟨(match steps.getLast? with
          | some p => .error p.2
          | none => finishFailover last),
         steps.map Prod.fst, steps.length⟩) := by
  refine ⟨?_, failover_cooldowns_sound, failover_ok_sound, ?_, ?_, ?_, ?_,
    fun tried e => rfl, fun tried => rfl, fun total trace => rfl, failover_all_auth⟩
  · intro avail total trace
    unfold generate_with_account_pool
    by_cases h : avail = 0
    · rw [if_pos h]
      exact Nat.zero_le _
    · rw [if_neg h]
      calc (runFailover (trace.take total) [] none).attempts
          ≤ (trace.take total).length := failover_attempts_le _ [] none
        _ ≤ total := List.length_take_le total trace
  · intro trace e h
    rcases failover_error_sound trace [] none e h with h1 | h2 | h3
    · exact Or.inl h1
    · exact absurd h2 (by intro hx; cases hx)
    · exact Or.inr h3
  · intro id e rest tried last hid he
    simp [runFailover, hid, he]
  · intro id e rest tried last hid he
    simp [runFailover, hid, he]
  · intro id res rest tried last hid
    simp [runFailover, hid]

/-! Section: VideoTaskManager (`app/core/video_tasks.py`) -/

/-- Model of `VideoTaskResult` (app/models.py). -/
structure VideoTaskResult where
  url : String
  provider_task_id : Option String
  provider_item_ids : Option (List String)
  provider_generate_id : Option String
  last_frame_url : Option String
  deriving DecidableEq, Repr

/-- Model of `ErrorDetail` (app/models.py). -/
structure ErrorDetail where
  message : String
  type : String
  code : String
  deriving DecidableEq, Repr

/-- Model of `GenerateVideoTaskRequest` (app/models.py), the fields relevant to the
task store. -/
structure GenerateVideoTaskRequest where
  prompt : String
  model : Option String
  images : Option (List String)
  duration : Option Int
  deriving DecidableEq, Repr

/-- Model of `VideoTaskState` (app/core/video_tasks.py). -/
structure VideoTaskState where
  id : String
  created : Int
  status : String
  model : String
  request : GenerateVideoTaskRequest
  provider_task_id : Option String
  provider_item_ids : Option (List String)
  provider_generate_id : Option String
  result : Option VideoTaskResult
  error : Option ErrorDetail
  deriving DecidableEq, Repr

/-- The state created by `create_task` (status `queued`, everything else
empty). -/
def createTaskState (id : String) (created : Int) (model : String)
    (request : GenerateVideoTaskRequest) : VideoTaskState :=
  { id := id, created := created, status := "queued", model := model, request := request,
    provider_task_id := none, provider_item_ids := none, provider_generate_id := none,
    result := none, error := none }

/-- The mutations the owning `_run_task` coroutine applies to one task:
`_update_status("processing")`, the `_set_provider_binding` callback, and the
terminal `_set_success` / `_set_failure`. -/
inductive TaskEvent where
  | startProcessing
  | bind (provider_task_id : String) (provider_item_ids : Option (List String))
      (provider_generate_id : Option String)
  | succeed (url : String) (provider_task_id : Option String)
      (provider_item_ids : Option (List String)) (provider_generate_id : Option String)
  | fail (error : ErrorDetail) (provider_task_id : Option String)
      (provider_item_ids : Option (List String)) (provider_generate_id : Option String)
  deriving DecidableEq, Repr

/-- Python truthiness gate for optional lists (`if provider_item_ids:`). -/
def keepIfTruthyList (new : Option (List String)) (old : Option (List String)) :
    Option (List String) :=
  match new with
  | some l => if l ≠ [] then some l else old
  | none => old

/-- Python truthiness gate for optional strings (`if provider_generate_id:`). -/
def keepIfTruthyStr (new : Option String) (old : Option String) : Option String :=
  match new with
  | some g => if g ≠ "" then some g else old
  | none => old

/-- One mutation, exactly as `_update_status` / `_set_provider_binding` /
`_set_success` / `_set_failure` write the record. -/
def taskStep (s : VideoTaskState) : TaskEvent → VideoTaskState
  | .startProcessing => { s with status := "processing" }
  | .bind pid items gid =>
    { s with
      provider_task_id := some pid,
      provider_item_ids := keepIfTruthyList items s.provider_item_ids,
      provider_generate_id := keepIfTruthyStr gid s.provider_generate_id }
  | .succeed url pid items gid =>
    { s with
      status := "succeeded",
      provider_task_id := pid,
      provider_item_ids := items,
      provider_generate_id := gid,
      result := some ⟨url, pid, items, gid, none⟩,
      error := none }
  | .fail err pid items gid =>
    { s with
      status := "failed",
      provider_task_id := keepIfTruthyStr pid s.provider_task_id,
      provider_item_ids := keepIfTruthyList items s.provider_item_ids,
      provider_generate_id := keepIfTruthyStr gid s.provider_generate_id,
      error := some err }

/-- The event trace `_run_task` produces: set `processing`, then the binding
callbacks fired by the processor, then exactly one terminal event. -/
def runTaskTrace (bindings : List (String × Option (List String) × Option String))
    (terminal : TaskEvent) : List TaskEvent :=
  .startProcessing :: (bindings.map (fun b => TaskEvent.bind b.1 b.2.1 b.2.2)) ++ [terminal]

/-- Terminal events of the state machine. -/
def TaskEvent.isTerminal : TaskEvent → Bool
  | .succeed _ _ _ _ => true
  | .fail _ _ _ _ => true
  | _ => false

/-- Allowed consecutive status pairs: unchanged, `queued → processing`,
`processing → succeeded` or `processing → failed`. -/
def statusStep (a b : String) : Prop :=
  a = b ∨ (a = "queued" ∧ b = "processing") ∨
    (a = "processing" ∧ b = "succeeded") ∨ (a = "processing" ∧ b = "failed")

/-- Exactly one of `result`/`error` is non-null. -/
def exactlyOneResultError (s : VideoTaskState) : Prop :=
  (s.result.isSome ∧ s.error = none) ∨ (s.result = none ∧ s.error.isSome)

lemma taskStep_bind_fields (s : VideoTaskState) (b : String × Option (List String) × Option String) :
    (taskStep s (.bind b.1 b.2.1 b.2.2)).status = s.status ∧
      (taskStep s (.bind b.1 b.2.1 b.2.2)).result = s.result ∧
      (taskStep s (.bind b.1 b.2.1 b.2.2)).error = s.error := ⟨rfl, rfl, rfl⟩

lemma scanl_head_some (f : VideoTaskState → TaskEvent → VideoTaskState)
    (b : VideoTaskState) (l : List TaskEvent) :
    (List.scanl f b l).head? = some b := by
  cases l <;> rfl

lemma task_middle_run
    (bindings : List (String × Option (List String) × Option String)) :
    ∀ (s : VideoTaskState), s.status = "processing" → s.result = none → s.error = none →
    ∀ (terminal : TaskEvent), terminal.isTerminal = true →
    (List.Chain' statusStep
      ((List.scanl taskStep s
        ((bindings.map (fun b => TaskEvent.bind b.1 b.2.1 b.2.2)) ++ [terminal])).map
        (fun st => st.status))) ∧
    (∀ st ∈ List.scanl taskStep s
        ((bindings.map (fun b => TaskEvent.bind b.1 b.2.1 b.2.2)) ++ [terminal]),
      (st.status = "succeeded" ∨ st.status = "failed") → exactlyOneResultError st) ∧
    ((List.foldl taskStep s
        ((bindings.map (fun b => TaskEvent.bind b.1 b.2.1 b.2.2)) ++ [terminal])).status =
          "succeeded" ∨
      (List.foldl taskStep s
        ((bindings.map (fun b => TaskEvent.bind b.1 b.2.1 b.2.2)) ++ [terminal])).status =
          "failed") := by
  induction bindings with
  | nil =>
    intro s hst hres herr terminal hterm
    simp only [List.map_nil, List.nil_append, List.scanl_cons, List.scanl_nil,
      List.singleton_append, List.map_cons, List.foldl_cons, List.foldl_nil]
    cases terminal with
    | startProcessing => exact Bool.noConfusion hterm
    | bind pid items gid => exact Bool.noConfusion hterm
    | succeed url pid items gid =>
      refine ⟨?_, ?_, Or.inl rfl⟩
      · simp only [List.map_nil, List.chain'_cons, List.chain'_singleton, and_true]
        right; right; left
        exact ⟨hst, rfl⟩
      · intro st hmem
        simp only [List.mem_cons, List.not_mem_nil, or_false] at hmem
        cases hmem with
        | inl h =>
          subst h
          intro habs
          rw [hst] at habs
          cases habs with
          | inl h' => exact absurd h' (by decide)
          | inr h' => exact absurd h' (by decide)
        | inr h =>
          subst h
          intro _
          left
          exact ⟨rfl, rfl⟩
    | fail err pid items gid =>
      refine ⟨?_, ?_, Or.inr rfl⟩
      · simp only [List.map_nil, List.chain'_cons, List.chain'_singleton, and_true]
        right; right; right
        exact ⟨hst, rfl⟩
      · intro st hmem
        simp only [List.mem_cons, List.not_mem_nil, or_false] at hmem
        cases hmem with
        | inl h =>
          subst h
          intro habs
          rw [hst] at habs
          cases habs with
          | inl h' => exact absurd h' (by decide)
          | inr h' => exact absurd h' (by decide)
        | inr h =>
          subst h
          intro _
          right
          refine ⟨?_, rfl⟩
          show s.result = none
          exact hres
  | cons b rest ih =>
    intro s hst hres herr terminal hterm
    have hfields := taskStep_bind_fields s b
    have hst' : (taskStep s (.bind b.1 b.2.1 b.2.2)).status = "processing" :=
      hfields.1.trans hst
    have hres' : (taskStep s (.bind b.1 b.2.1 b.2.2)).result = none :=
      hfields.2.1.trans hres
    have herr' : (taskStep s (.bind b.1 b.2.1 b.2.2)).error = none :=
      hfields.2.2.trans herr
    obtain ⟨ihchain, ihinv, ihfinal⟩ :=
      ih (taskStep s (.bind b.1 b.2.1 b.2.2)) hst' hres' herr' terminal hterm
    simp only [List.map_cons, List.cons_append, List.scanl_cons, List.singleton_append,
      List.nil_append, List.foldl_cons]
    refine ⟨?_, ?_, ihfinal⟩
    · rw [List.chain'_cons']
      refine ⟨?_, ihchain⟩
      intro y hy
      simp only [List.head?_map, scanl_head_some, Option.map_some', Option.mem_def,
        Option.some.injEq] at hy
      subst hy
      show statusStep s.status (taskStep s (.bind b.1 b.2.1 b.2.2)).status
      rw [hfields.1]
      exact Or.inl rfl
    · intro st hmem
      cases List.mem_cons.mp hmem with
      | inl h =>
        subst h
        intro habs
        rw [hst] at habs
        cases habs with
        | inl h' => exact absurd h' (by decide)
        | inr h' => exact absurd h' (by decide)
      | inr h => exact ihinv st h

/-- C5: along every run of a task — creation (`queued`), background
execution (`processing`), any number of provider-binding callbacks, and one
terminal success/failure — the status only moves along
`queued → processing → {succeeded, failed}` (consecutive states either keep
the status or take one of those transitions, so no state leaves a terminal
status), every reached state with terminal status has exactly one of
`result`/`error` non-null, and the final state is terminal. -/
theorem C5_task_status_machine
    (id : String) (created : Int) (model : String) (request : GenerateVideoTaskRequest)
    (bindings : List (String × Option (List String) × Option String))
    (terminal : TaskEvent) (hterm : terminal.isTerminal = true) :
    (List.Chain' statusStep
      ((List.scanl taskStep (createTaskState id created model request)
        (runTaskTrace bindings terminal)).map (fun st => st.status))) ∧
    (∀ st ∈ List.scanl taskStep (createTaskState id created model request)
        (runTaskTrace bindings terminal),
      (st.status = "succeeded" ∨ st.status = "failed") → exactlyOneResultError st) ∧
    ((List.foldl taskStep (createTaskState id created model request)
        (runTaskTrace bindings terminal)).status = "succeeded" ∨
      (List.foldl taskStep (createTaskState id created model request)
        (runTaskTrace bindings terminal)).status = "failed") := by
  have hmid := task_middle_run bindings
    (taskStep (createTaskState id created model request) .startProcessing)
    rfl rfl rfl terminal hterm
  obtain ⟨ihchain, ihinv, ihfinal⟩ := hmid
  simp only [runTaskTrace, List.scanl, List.map_cons, List.foldl_cons]
  refine ⟨?_, ?_, ihfinal⟩
  · rw [List.chain'_cons']
    refine ⟨?_, ihchain⟩
    intro y hy
    simp only [List.head?_map, scanl_head_some, Option.map_some', Option.mem_def,
      Option.some.injEq] at hy
    subst hy
    right; left
    exact ⟨rfl, rfl⟩
  · intro st hmem
    cases List.mem_cons.mp hmem with
    | inl h =>
      subst h
      intro habs
      have hq : (createTaskState id created model request).status = "queued" := rfl
      rw [hq] at habs
      cases habs with
      | inl h' => exact absurd h' (by decide)
      | inr h' => exact absurd h' (by decide)
    | inr h => exact ihinv st h

/-- Concrete instance of the C5 theorem: one binding callback followed by a
successful completion. -/
theorem C5_task_status_machine_witness :
    (List.Chain' statusStep
      ((List.scanl taskStep (createTaskState "t" 0 "m" ⟨"p", none, none, none⟩)
        (runTaskTrace [("pt1", some ["i1"], some "g1")]
          (.succeed "u" (some "pt1") none none))).map (fun st => st.status))) ∧
    (∀ st ∈ List.scanl taskStep (createTaskState "t" 0 "m" ⟨"p", none, none, none⟩)
        (runTaskTrace [("pt1", some ["i1"], some "g1")]
          (.succeed "u" (some "pt1") none none)),
      (st.status = "succeeded" ∨ st.status = "failed") → exactlyOneResultError st) ∧
    ((List.foldl taskStep (createTaskState "t" 0 "m" ⟨"p", none, none, none⟩)
        (runTaskTrace [("pt1", some ["i1"], some "g1")]
          (.succeed "u" (some "pt1") none none))).status = "succeeded" ∨
      (List.foldl taskStep (createTaskState "t" 0 "m" ⟨"p", none, none, none⟩)
        (runTaskTrace [("pt1", some ["i1"], some "g1")]
          (.succeed "u" (some "pt1") none none))).status = "failed") :=
  C5_task_status_machine "t" 0 "m" ⟨"p", none, none, none⟩
    [("pt1", some ["i1"], some "g1")] (.succeed "u" (some "pt1") none none) rfl

/-- The typed form of the JSON object `_serialize_state` writes for one task
(the field names match the dict keys read back by `_load_from_disk`). -/
structure TaskRecord where
  id : String
  created : Int
  status : String
  model : String
  request : GenerateVideoTaskRequest
  provider_task_id : Option String
  provider_item_ids : Option (List String)
  provider_generate_id : Option String
  result : Option VideoTaskResult
  error : Option ErrorDetail
  deriving DecidableEq, Repr

/-- Model of `_serialize_state`. -/
def serialize_state (s : VideoTaskState) : TaskRecord :=
  ⟨s.id, s.created, s.status, s.model, s.request, s.provider_task_id, s.provider_item_ids,
    s.provider_generate_id, s.result, s.error⟩

/-- One iteration of `_load_from_disk`'s loop: rebuild a `VideoTaskState`
from a record; a validation failure skips the record (hence `Option`). On the
typed record the `str`/`int` coercions and the pydantic `model_validate`
round trips are identities and validation always succeeds. -/
def load_record (r : TaskRecord) : Option VideoTaskState :=
  some ⟨r.id, r.created, r.status, r.model, r.request, r.provider_task_id, r.provider_item_ids,
    r.provider_generate_id, r.result, r.error⟩

/-- Model of `_persist_locked`: serialize the whole task table (the `tasks` list of
the stored payload). -/
def persist_locked (tasks : List VideoTaskState) : List TaskRecord :=
  tasks.map serialize_state

/-- Model of `_load_from_disk` over a stored `tasks` list. -/
def load_from_disk (records : List TaskRecord) : List VideoTaskState :=
  records.filterMap load_record

/-- The 404 raised by `get_task` for an unknown id. -/
def taskNotFoundErr : Err :=
  { status := 404, code := "task_not_found", message := "Task not found" }

/-- Model of `VideoTaskManager.get_task`. -/
def get_task (tasks : List VideoTaskState) (task_id : String) : Except Err VideoTaskState :=
  match tasks.find? (fun s => s.id == task_id) with
  | some s => .ok s
  | none => .error taskNotFoundErr

/-- C7: persisting the task table and reloading it reproduces every record
field-for-field (so `get_task` answers identically after a reload); a
queued/processing task is never lost and keeps its status (in particular a
`processing` task stays `processing`, it is not restarted), and the
exactly-one-of-result/error property of completed tasks survives the round
trip. -/
theorem C7_persistence_roundtrip :
    (∀ s : VideoTaskState, load_record (serialize_state s) = some s) ∧
    (∀ tasks : List VideoTaskState, load_from_disk (persist_locked tasks) = tasks) ∧
    (∀ (tasks : List VideoTaskState) (task_id : String),
      get_task (load_from_disk (persist_locked tasks)) task_id = get_task tasks task_id) ∧
    (∀ (tasks : List VideoTaskState) (s : VideoTaskState), s ∈ tasks →
      (s.status = "queued" ∨ s.status = "processing") →
      ∃ s' ∈ load_from_disk (persist_locked tasks), s'.id = s.id ∧ s'.status = s.status) ∧
    (∀ (s s' : VideoTaskState), exactlyOneResultError s →
      load_record (serialize_state s) = some s' → exactlyOneResultError s') := by
  have h1 : ∀ s : VideoTaskState, load_record (serialize_state s) = some s := fun s => rfl
  have h2 : ∀ tasks : List VideoTaskState, load_from_disk (persist_locked tasks) = tasks := by
    intro tasks
    induction tasks with
    | nil => rfl
    | cons t ts ih =>
      simp only [persist_locked, load_from_disk, List.map_cons, List.filterMap_cons, h1]
      simp only [persist_locked, load_from_disk] at ih
      rw [ih]
  refine ⟨h1, h2, ?_, ?_, ?_⟩
  · intro tasks task_id
    rw [h2]
  · intro tasks s hmem hst
    exact ⟨s, by rw [h2]; exact hmem, rfl, rfl⟩
  · intro s s' hone hload
    rw [h1] at hload
    injection hload with h
    rw [← h]
    exact hone

/-! Section: HttpImageGenerator (`app/core/http_generator.py`) -/

/-- Python `str.isspace` / `str.strip` whitespace, restricted to the ASCII
whitespace characters that can occur in this protocol's frames. Digits and
JSON punctuation are never whitespace. -/
def isPySpace (c : Char) : Bool :=
  c == ' ' || c == '\t' || c == '\n' || c == '\r' || c == '\x0b' || c == '\x0c'

/-- Python `str.strip()` on a list of code points. -/
def pyStrip (s : List Char) : List Char :=
  ((s.dropWhile isPySpace).reverse.dropWhile isPySpace).reverse

/-- The observable side effects `generate` performs after its prompt guard:
session bootstrap, cookie rotation, reference upload, the generation request
and the image download. -/
inductive GenEffect where
  | ensureSession
  | rotateCookies
  | uploadFile
  | sendGenerateRequest
  | downloadImage
  deriving DecidableEq, Repr

/-- The 400 raised for an empty prompt. -/
def promptEmptyErr : Err :=
  { status := 400, code := "invalid_request_error", message := "Prompt cannot be empty" }

/-- Result of a `generate` call: the generator state afterwards, the effects
performed, and the raised error if any. -/
structure GenOutcome (σ : Type) where
  state : σ
  effects : List GenEffect
  error : Option Err

/-- Model of `HttpImageGenerator.generate`: the guard `if not prompt.strip()` raises
the 400 before anything else runs; the whole body after the guard is the
continuation `rest`. -/
def HttpImageGenerator.generate {σ : Type} (st : σ) (prompt : List Char)
    (rest : σ → GenOutcome σ) : GenOutcome σ :=
  if (pyStrip prompt).isEmpty then
    { state := st, effects := [], error := some promptEmptyErr }
  else rest st

/-- C10: a prompt that is empty or whitespace-only makes
`HttpImageGenerator.generate` fail immediately with HTTP 400, code
`invalid_request_error`, message `Prompt cannot be empty`, performing no
session initialisation, cookie rotation, upload or network effect and
leaving the generator state unchanged. -/
theorem C10_empty_prompt_rejected {σ : Type} (st : σ) (prompt : List Char)
    (rest : σ → GenOutcome σ) (hws : ∀ c ∈ prompt, isPySpace c = true) :
    HttpImageGenerator.generate st prompt rest =
      { state := st, effects := [], error := some promptEmptyErr } ∧
    promptEmptyErr.status = 400 ∧ promptEmptyErr.code = "invalid_request_error" ∧
    promptEmptyErr.message = "Prompt cannot be empty" := by
  refine ⟨?_, rfl, rfl, rfl⟩
  have hdrop : prompt.dropWhile isPySpace = [] := by
    rw [List.dropWhile_eq_nil_iff]
    exact hws
  unfold HttpImageGenerator.generate
  rw [if_pos]
  simp [pyStrip, hdrop]

/-- Concrete instance of the C10 theorem on the two-character whitespace
prompt `" \t"`. -/
theorem C10_empty_prompt_rejected_witness :
    HttpImageGenerator.generate (0 : Nat) [' ', '\t']
        (fun st => { state := st + 1, effects := [GenEffect.ensureSession], error := none }) =
      { state := 0, effects := [], error := some promptEmptyErr } ∧
    promptEmptyErr.status = 400 ∧ promptEmptyErr.code = "invalid_request_error" ∧
    promptEmptyErr.message = "Prompt cannot be empty" :=
  C10_empty_prompt_rejected 0 [' ', '\t']
    (fun st => { state := st + 1, effects := [GenEffect.ensureSession], error := none })
    (by decide)

/-! Section: Auth cookie selection (`_select_auth_cookie_pair` and helpers) -/

/-- One observed value for a required auth cookie name, as collected by
`_extract_google_cookies`. -/
structure AuthCandidate where
  value : String
  domain : List Char
  group : Nat
  rank : Nat
  expires : Int
  deriving DecidableEq, Repr

/-- Whether `needle` occurs as a contiguous subsequence of `hay` (Python `in`). -/
def containsSeq (needle hay : List Char) : Bool :=
  hay.tails.any (fun t => needle.isPrefixOf t)

/-- Model of `_normalize_cookie_domain`: strip, lowercase, drop leading dots. -/
def normalize_cookie_domain (domain : List Char) : List Char :=
  ((pyStrip domain).map Char.toLower).dropWhile (fun c => c == '.')

/-- Model of `_auth_domain_group`: 0 for `google.com` and `*.google.com`, 1 for other
`google.`-ish domains, 2 otherwise. -/
def auth_domain_group (d : List Char) : Nat :=
  if d == "google.com".toList || (".google.com".toList).isSuffixOf d then 0
  else if ("google.".toList).isPrefixOf d || containsSeq ".google.".toList d then 1
  else 2

/-- Model of `_auth_domain_rank`: root domain before subdomains within a group. -/
def auth_domain_rank (d : List Char) : Nat :=
  if d == "google.com".toList then 0
  else if (".google.com".toList).isSuffixOf d then 1
  else if ("google.".toList).isPrefixOf d then 2
  else 3

/-- Build the candidate record `_extract_google_cookies` appends. -/
def mkAuthCandidate (value : String) (domain : String) (expires : Int) : AuthCandidate :=
  let nd := normalize_cookie_domain domain.toList
  ⟨value, nd, auth_domain_group nd, auth_domain_rank nd, expires⟩

/-- The expiry filter of `_extract_google_cookies`: skip a candidate whose
parsed expiry is truthy and already past (`if exp_ts and exp_ts < now`). -/
def filterExpired (now : Int) (cands : List AuthCandidate) : List AuthCandidate :=
  cands.filter (fun c => c.expires == 0 || decide (now ≤ c.expires))

/-- The sort key order of `_pick_best_auth_candidate`:
`(group, rank, -expires)` lexicographically. -/
def candKeyLe (a b : AuthCandidate) : Bool :=
  decide (a.group < b.group) ||
    (a.group == b.group &&
      (decide (a.rank < b.rank) || (a.rank == b.rank && decide (b.expires ≤ a.expires))))

/-- The Prop form of the key order, for the stable sort. -/
def candLe (a b : AuthCandidate) : Prop := candKeyLe a b = true

instance : DecidableRel candLe := fun a b => instDecidableEqBool (candKeyLe a b) true

/-- Model of `_pick_best_auth_candidate`: head of the candidates (optionally
restricted to one group) stably sorted by `(group, rank, -expires)`
(Python `sorted` is a stable sort; `List.insertionSort` is too). -/
def pick_best_auth_candidate (candidates : List AuthCandidate) (g : Option Nat) :
    Option AuthCandidate :=
  let pool := candidates.filter (fun c =>
    match g with
    | none => true
    | some g0 => c.group == g0)
  (pool.insertionSort candLe).head?

/-- The shared-group scan of `_select_auth_cookie_pair`: the first of the
groups 0, 1, 2 present in both candidate lists. -/
def commonGroup (psid_list psidts_list : List AuthCandidate) : Option Nat :=
  [0, 1, 2].find? (fun g =>
    psid_list.any (fun c => c.group == g) && psidts_list.any (fun c => c.group == g))

/-- Model of `_select_auth_cookie_pair`. -/
def select_auth_cookie_pair (psid_list psidts_list : List AuthCandidate) :
    Option AuthCandidate × Option AuthCandidate :=
  if psid_list = [] then (none, none)
  else
    match commonGroup psid_list psidts_list with
    | some g =>
      (pick_best_auth_candidate psid_list (some g),
        pick_best_auth_candidate psidts_list (some g))
    | none =>
      (pick_best_auth_candidate psid_list none, pick_best_auth_candidate psidts_list none)

lemma candKeyLe_refl (a : AuthCandidate) : candKeyLe a a = true := by
  simp [candKeyLe]

lemma candKeyLe_total (a b : AuthCandidate) : candKeyLe a b || candKeyLe b a := by
  simp only [candKeyLe, Bool.or_eq_true, Bool.and_eq_true, decide_eq_true_eq, beq_iff_eq]
  omega

lemma candKeyLe_trans (a b c : AuthCandidate) :
    candKeyLe a b → candKeyLe b c → candKeyLe a c := by
  simp only [candKeyLe, Bool.or_eq_true, Bool.and_eq_true, decide_eq_true_eq, beq_iff_eq]
  omega

instance : IsTotal AuthCandidate candLe :=
  ⟨fun a b => by
    unfold candLe
    rcases Bool.or_eq_true _ _ |>.mp (candKeyLe_total a b) with h | h
    · exact Or.inl h
    · exact Or.inr h⟩

instance : IsTrans AuthCandidate candLe := ⟨fun a b c => candKeyLe_trans a b c⟩

/-- A successful `_pick_best_auth_candidate` returns a member of the
(group-restricted) pool that is minimal for `(group, rank, -expires)`. -/
lemma pick_best_spec (candidates : List AuthCandidate) (g : Option Nat)
    (c : AuthCandidate) (h : pick_best_auth_candidate candidates g = some c) :
    c ∈ candidates.filter (fun x =>
        match g with
        | none => true
        | some g0 => x.group == g0) ∧
      ∀ d ∈ candidates.filter (fun x =>
        match g with
        | none => true
        | some g0 => x.group == g0), candKeyLe c d = true := by
  unfold pick_best_auth_candidate at h
  set pool := candidates.filter (fun x =>
    match g with
    | none => true
    | some g0 => x.group == g0) with hpool
  have h2 : (pool.insertionSort candLe).head? = some c := h
  cases hs : pool.insertionSort candLe with
  | nil => rw [hs] at h2; cases h2
  | cons x tl =>
    rw [hs] at h2
    have hx : x = c := by injection h2
    subst hx
    have hperm : List.Perm (pool.insertionSort candLe) pool := List.perm_insertionSort candLe pool
    have hmem : x ∈ pool := hperm.mem_iff.mp (by rw [hs]; exact List.mem_cons_self _ _)
    refine ⟨hmem, ?_⟩
    intro d hd
    have hds : d ∈ pool.insertionSort candLe := hperm.mem_iff.mpr hd
    rw [hs] at hds
    cases List.mem_cons.mp hds with
    | inl hdx => rw [hdx]; exact candKeyLe_refl x
    | inr hdtl =>
      have hsorted := List.sorted_insertionSort candLe pool
      rw [hs] at hsorted
      exact (List.pairwise_cons.mp hsorted).1 d hdtl

/-- A nonempty pool always yields a pick. -/
lemma pick_best_isSome (candidates : List AuthCandidate) (g : Option Nat)
    (hne : candidates.filter (fun x =>
      match g with
      | none => true
      | some g0 => x.group == g0) ≠ []) :
    ∃ c, pick_best_auth_candidate candidates g = some c := by
  unfold pick_best_auth_candidate
  set pool := candidates.filter (fun x =>
    match g with
    | none => true
    | some g0 => x.group == g0) with hpool
  show ∃ c, (pool.insertionSort candLe).head? = some c
  cases hs : pool.insertionSort candLe with
  | nil =>
    have hperm : List.Perm (pool.insertionSort candLe) pool := List.perm_insertionSort candLe pool
    rw [hs] at hperm
    exact absurd (hperm.nil_eq).symm hne
  | cons x tl =>
    exact ⟨x, by simp [hs]⟩

/-- C4 counterexample: with a group-0 and a group-1 PSID candidate but only a
group-1 PSIDTS candidate, the pair selection settles on the shared group 1
and returns the group-1 PSID value, although the group-0 candidate is
strictly better in the `(group, rank, -expiry)` order — so the chosen value
is not the best candidate among that cookie name's non-expired candidates. -/
theorem C4_cookie_selection_counterexample :
    (select_auth_cookie_pair
        (filterExpired 0 [mkAuthCandidate "va" "google.com" 100,
          mkAuthCandidate "vb" "accounts.google.com.hk" 200])
        (filterExpired 0 [mkAuthCandidate "vc" "accounts.google.com.hk" 50])).1 =
      some (mkAuthCandidate "vb" "accounts.google.com.hk" 200) ∧
    mkAuthCandidate "va" "google.com" 100 ∈
      filterExpired 0 [mkAuthCandidate "va" "google.com" 100,
        mkAuthCandidate "vb" "accounts.google.com.hk" 200] ∧
    candKeyLe (mkAuthCandidate "va" "google.com" 100)
      (mkAuthCandidate "vb" "accounts.google.com.hk" 200) = true ∧
    candKeyLe (mkAuthCandidate "vb" "accounts.google.com.hk" 200)
      (mkAuthCandidate "va" "google.com" 100) = false := by
  refine ⟨by decide, by decide, by decide, by decide⟩

/-- C4 (amended): the chosen value for each auth cookie name is the best
candidate by `(group, rank, -expiry)` among that name's non-expired
candidates restricted to the smallest group present in both names' candidate
lists when such a shared group exists, and among all of the name's
non-expired candidates otherwise. In the two-candidate scenario (group-0
versus group-1 for the same name), the group-0 candidate wins regardless of
expiry whenever the other name's candidates do not force group 1 — i.e. the
other list also has a group-0 candidate, or shares no group at all. -/
theorem C4_cookie_selection_amended :
    (∀ (cands : List AuthCandidate) (g : Option Nat) (c : AuthCandidate),
      pick_best_auth_candidate cands g = some c →
      c ∈ cands.filter (fun x =>
          match g with
          | none => true
          | some g0 => x.group == g0) ∧
        ∀ d ∈ cands.filter (fun x =>
          match g with
          | none => true
          | some g0 => x.group == g0), candKeyLe c d = true) ∧
    (∀ (psid_list psidts_list : List AuthCandidate) (g : Nat), psid_list ≠ [] →
      commonGroup psid_list psidts_list = some g →
      select_auth_cookie_pair psid_list psidts_list =
        (pick_best_auth_candidate psid_list (some g),
          pick_best_auth_candidate psidts_list (some g))) ∧
    (∀ (psid_list psidts_list : List AuthCandidate), psid_list ≠ [] →
      commonGroup psid_list psidts_list = none →
      select_auth_cookie_pair psid_list psidts_list =
        (pick_best_auth_candidate psid_list none,
          pick_best_auth_candidate psidts_list none)) ∧
    (∀ (a b : AuthCandidate) (psidts_list : List AuthCandidate) (now : Int),
      a.group = 0 → b.group = 1 →
      (a.expires == 0 || decide (now ≤ a.expires)) = true →
      (b.expires == 0 || decide (now ≤ b.expires)) = true →
      ((∃ c ∈ filterExpired now psidts_list, c.group = 0) ∨
        (∀ c ∈ filterExpired now psidts_list, c.group ≠ 0 ∧ c.group ≠ 1)) →
      (select_auth_cookie_pair (filterExpired now [a, b])
        (filterExpired now psidts_list)).1 = some a) := by
  refine ⟨pick_best_spec, ?_, ?_, ?_⟩
  · intro psid psidts g hne hcg
    unfold select_auth_cookie_pair
    rw [if_neg hne, hcg]
  · intro psid psidts hne hcg
    unfold select_auth_cookie_pair
    rw [if_neg hne, hcg]
  · intro a b psidts now ha hb hak hbk hC
    have hfilter : filterExpired now [a, b] = [a, b] := by
      simp only [filterExpired, List.filter_cons, hak, hbk, if_true, List.filter_nil]
    have hane : filterExpired now [a, b] ≠ [] := by rw [hfilter]; exact List.cons_ne_nil a [b]
    have hgb0 : (b.group == 0) = false := by simp [hb]
    have hga0 : (a.group == 0) = true := by simp [ha]
    cases hC with
    | inl hex =>
      obtain ⟨c, hc, hc0⟩ := hex
      have hcg : commonGroup (filterExpired now [a, b]) (filterExpired now psidts) = some 0 := by
        unfold commonGroup
        rw [List.find?_cons_of_pos]
        simp only [Bool.and_eq_true, List.any_eq_true]
        exact ⟨⟨a, by rw [hfilter]; exact List.mem_cons_self a [b], hga0⟩,
          ⟨c, hc, by simp [hc0]⟩⟩
      unfold select_auth_cookie_pair
      rw [if_neg hane, hcg]
      show pick_best_auth_candidate (filterExpired now [a, b]) (some 0) = some a
      have hpool : (filterExpired now [a, b]).filter (fun x => x.group == (0 : Nat)) = [a] := by
        rw [hfilter]
        simp [List.filter_cons, hga0, hgb0]
      obtain ⟨c', hc'⟩ := pick_best_isSome (filterExpired now [a, b]) (some 0)
        (by rw [hpool]; exact List.cons_ne_nil a [])
      obtain ⟨hmem, -⟩ := pick_best_spec _ _ _ hc'
      rw [hpool] at hmem
      have : c' = a := by
        cases List.mem_cons.mp hmem with
        | inl h => exact h
        | inr h => exact absurd h (List.not_mem_nil c')
      rw [hc', this]
    | inr hall =>
      have hcg : commonGroup (filterExpired now [a, b]) (filterExpired now psidts) = none := by
        unfold commonGroup
        have hnone : ∀ g0 : Nat, (filterExpired now psidts).any (fun c => c.group == g0) = true →
            ∃ c ∈ filterExpired now psidts, c.group = g0 := by
          intro g0 h
          obtain ⟨c, hc, hcg0⟩ := List.any_eq_true.mp h
          exact ⟨c, hc, by simpa using hcg0⟩
        rw [List.find?_cons_of_neg, List.find?_cons_of_neg, List.find?_cons_of_neg,
          List.find?_nil]
        · -- group 2 : the PSID side has no group-2 candidate
          simp only [Bool.and_eq_true, List.any_eq_true, not_and]
          intro hpsid
          obtain ⟨c, hc, hc2⟩ := hpsid
          rw [hfilter] at hc
          rcases List.mem_cons.mp hc with h | h
          · subst h; simp [ha] at hc2
          · rcases List.mem_cons.mp h with h' | h'
            · subst h'; simp [hb] at hc2
            · exact absurd h' (List.not_mem_nil c)
        · -- group 1 : the PSIDTS side has no group-1 candidate
          simp only [Bool.and_eq_true, not_and]
          intro _ hts
          obtain ⟨c, hc, hc1⟩ := hnone 1 hts
          exact (hall c hc).2 hc1
        · -- group 0 : the PSIDTS side has no group-0 candidate
          simp only [Bool.and_eq_true, not_and]
          intro _ hts
          obtain ⟨c, hc, hc0⟩ := hnone 0 hts
          exact (hall c hc).1 hc0
      unfold select_auth_cookie_pair
      rw [if_neg hane, hcg]
      show pick_best_auth_candidate (filterExpired now [a, b]) none = some a
      have hpool : (filterExpired now [a, b]).filter (fun _ => true) = [a, b] := by
        rw [hfilter]
        simp
      obtain ⟨c', hc'⟩ := pick_best_isSome (filterExpired now [a, b]) none
        (by rw [hpool]; exact List.cons_ne_nil a [b])
      obtain ⟨hmem, hminimal⟩ := pick_best_spec _ _ _ hc'
      rw [hpool] at hmem hminimal
      have hmle := hminimal a (List.mem_cons_self a [b])
      have : c' = a := by
        rcases List.mem_cons.mp hmem with h | h
        · exact h
        · rcases List.mem_cons.mp h with h' | h'
          · exfalso
            subst h'
            simp only [candKeyLe, ha, hb, Bool.or_eq_true, Bool.and_eq_true,
              decide_eq_true_eq, beq_iff_eq] at hmle
            omega
          · exact absurd h' (List.not_mem_nil c')
      rw [hc', this]

/-! Section: Length-prefixed frame decoder (`_parse_length_prefixed_frames`,
`_get_char_count_for_utf16_units`, `_parse_stream_parts`) -/

/-- JSON values, as far as the decoder distinguishes them (orjson's parse
result: only the list/non-list distinction matters to frame accumulation). -/
inductive Json where
  | null
  | bool (b : Bool)
  | num (n : Int)
  | str (s : List Char)
  | arr (elements : List Json)
  | obj (fields : List (List Char × Json))

/-- UTF-16 code units of one code point: `2 if ord(char) > 0xFFFF else 1`. -/
def utf16UnitLen (c : Char) : Nat := if 0xFFFF < c.toNat then 2 else 1

/-- UTF-16 code-unit length of a string of code points. -/
def utf16Len (s : List Char) : Nat := (s.map utf16UnitLen).sum

/-- Model of `_get_char_count_for_utf16_units`, relative to the suffix starting at
`start_idx`: walk the characters accumulating 1 or 2 units each, stopping
before the unit budget is exceeded; returns `(char_count, units_found)`. -/
def countUnits : List Char → Nat → Nat × Nat
  | _, 0 => (0, 0)
  | [], _ => (0, 0)
  | c :: rest, t + 1 =>
    let u := utf16UnitLen c
    if t + 1 < u then (0, 0)
    else
      let r := countUnits rest (t + 1 - u)
      (r.1 + 1, r.2 + u)

/-- Model of `int(length_val)`: decimal value of a digit run. -/
def digitsToNat (ds : List Char) : Nat :=
  ds.foldl (fun a c => a * 10 + (c.toNat - 48)) 0

/-- The contribution of one parsed frame to the result list: a JSON list
contributes its elements, anything else is a singleton. -/
def frameContribution : Json → List Json
  | .arr xs => xs
  | v => [v]

/-- The loop of `_parse_length_prefixed_frames`, with `orjson.loads` passed
in as `parse` and a fuel bound on the number of iterations. Per iteration:
skip whitespace; match the `(\d+)\n` prefix (a maximal digit run followed by
a newline) or stop; count characters worth `utf16_units` UTF-16 units
starting at the newline (the `match.start() + len(length_val)` offset);
stop if the input ends early; otherwise take that slice, strip it, parse it,
accumulate, and continue after the slice. -/
def parse_frames_aux (parse : List Char → Option Json) :
    Nat → List Char → List Json × List Char
  | 0, s => ([], s)
  | fuel + 1, s =>
    let s1 := s.dropWhile isPySpace
    if s1.isEmpty then ([], [])
    else
      let digits := s1.takeWhile Char.isDigit
      if digits.isEmpty then ([], s1)
      else
        match s1.drop digits.length with
        | '\n' :: after =>
          let utf16_units := digitsToNat digits
          let r := countUnits ('\n' :: after) utf16_units
          if r.2 < utf16_units then ([], s1)
          else
            let chunk := pyStrip (('\n' :: after).take r.1)
            let rest := ('\n' :: after).drop r.1
            if chunk.isEmpty then parse_frames_aux parse fuel rest
            else
              match parse chunk with
              | none => parse_frames_aux parse fuel rest
              | some v =>
                let pr := parse_frames_aux parse fuel rest
                (frameContribution v ++ pr.1, pr.2)
        | _ => ([], s1)

/-- Model of `_parse_length_prefixed_frames`: the loop consumes at least one
character whenever it recurses, so `length + 1` fuel never runs out. -/
def parse_length_prefixed_frames (parse : List Char → Option Json)
    (content : List Char) : List Json × List Char :=
  parse_frames_aux parse (content.length + 1) content

/-- The permissive line-by-line fallback of `_parse_stream_parts`: strip each
line, skip empty and all-digit lines, parse the rest, a list extends and a
bare value appends. -/
def fallback_parts (parse : List Char → Option Json) (content : List Char) : List Json :=
  ((content.splitOn '\n').map pyStrip).foldl
    (fun acc line =>
      if line.isEmpty then acc
      else if line.all Char.isDigit then acc
      else
        match parse line with
        | none => acc
        | some v => acc ++ frameContribution v)
    []

/-- Model of `_parse_stream_parts`: drop a leading `)]}'` marker, left-strip, decode
the frames, and fall back to the line parser when zero frames were
recovered. -/
def parse_stream_parts (parse : List Char → Option Json)
    (response_text : List Char) : List Json :=
  let content :=
    if (")]\x7d'".toList).isPrefixOf response_text then response_text.drop 4 else response_text
  let content := content.dropWhile isPySpace
  let pr := parse_length_prefixed_frames parse content
  if pr.1.isEmpty then fallback_parts parse content else pr.1

/-- Decimal digit characters of `n` (most significant first), structurally
recursive so that it evaluates by reduction. -/
def natDigitsAux : Nat → Nat → List Char → List Char
  | 0, _, acc => acc
  | fuel + 1, n, acc =>
    let d := Char.ofNat (48 + n % 10)
    if n < 10 then d :: acc
    else natDigitsAux fuel (n / 10) (d :: acc)

/-- Decimal representation of `n`. -/
def natDigits (n : Nat) : List Char := natDigitsAux (n + 1) n []

/-- One frame as the claim writes it: `<L>\n<json>` with `L` the UTF-16
length of the payload alone. -/
def encode_frame_claimed (p : List Char) : List Char :=
  natDigits (utf16Len p) ++ '\n' :: p

/-- One frame as the decoder actually consumes it: the length also counts
the separator newline, `L = 1 + utf16Len payload`. -/
def encode_frame (p : List Char) : List Char :=
  natDigits (1 + utf16Len p) ++ '\n' :: p

/-- Concatenated frames. -/
def encode_frames (ps : List (List Char)) : List Char :=
  (ps.map encode_frame).flatten

lemma digitChar_facts (d : Nat) (hd : d < 10) :
    (Char.ofNat (48 + d)).isDigit = true ∧ isPySpace (Char.ofNat (48 + d)) = false ∧
      (Char.ofNat (48 + d)).toNat = 48 + d := by
  interval_cases d <;> exact ⟨rfl, rfl, rfl⟩

lemma natDigitsAux_spec :
    ∀ (fuel n : Nat) (acc : List Char), n < fuel →
      ∃ ds : List Char, natDigitsAux fuel n acc = ds ++ acc ∧ ds ≠ [] ∧
        (∀ c ∈ ds, c.isDigit = true ∧ isPySpace c = false) ∧
        (∀ a : Nat, ds.foldl (fun a c => a * 10 + (c.toNat - 48)) a = a * 10 ^ ds.length + n) := by
  intro fuel
  induction fuel with
  | zero => intro n acc h; omega
  | succ f ih =>
    intro n acc h
    obtain ⟨hdig, hws, hval⟩ := digitChar_facts (n % 10) (Nat.mod_lt _ (by omega))
    by_cases hn : n < 10
    · refine ⟨[Char.ofNat (48 + n % 10)], ?_, by simp, ?_, ?_⟩
      · simp [natDigitsAux, hn]
      · intro c hc
        rw [List.mem_singleton] at hc
        subst hc
        exact ⟨hdig, hws⟩
      · intro a
        simp only [List.foldl_cons, List.foldl_nil, List.length_singleton, pow_one, hval]
        omega
    · have hrec : n / 10 < f := by
        have h1 : n / 10 < n := Nat.div_lt_self (by omega) (by omega)
        omega
      obtain ⟨ds', hds', hne', hchars', hfold'⟩ := ih (n / 10) (Char.ofNat (48 + n % 10) :: acc) hrec
      refine ⟨ds' ++ [Char.ofNat (48 + n % 10)], ?_, by simp, ?_, ?_⟩
      · rw [show natDigitsAux (f + 1) n acc = natDigitsAux f (n / 10) (Char.ofNat (48 + n % 10) :: acc) by
          simp [natDigitsAux, hn]]
        rw [hds', List.append_assoc, List.singleton_append]
      · intro c hc
        rcases List.mem_append.mp hc with h' | h'
        · exact hchars' c h'
        · rw [List.mem_singleton] at h'
          subst h'
          exact ⟨hdig, hws⟩
      · intro a
        rw [List.foldl_append]
        have hfold := hfold' a
        -- the recursive digits carry n / 10; the final digit adds n % 10
        have : (ds'.foldl (fun a c => a * 10 + (c.toNat - 48)) a) * 10 +
            ((Char.ofNat (48 + n % 10)).toNat - 48) = a * 10 ^ (ds'.length + 1) + n := by
          rw [hfold, hval, pow_succ]
          have := Nat.div_add_mod n 10
          ring_nf
          omega
        simpa using this

lemma natDigits_spec (n : Nat) :
    natDigits n ≠ [] ∧ (∀ c ∈ natDigits n, c.isDigit = true ∧ isPySpace c = false) ∧
      digitsToNat (natDigits n) = n := by
  obtain ⟨ds, hds, hne, hchars, hfold⟩ := natDigitsAux_spec (n + 1) n [] (by omega)
  unfold natDigits digitsToNat
  rw [hds, List.append_nil]
  refine ⟨hne, hchars, ?_⟩
  have := hfold 0
  simpa using this

lemma takeWhile_digits_append (ds : List Char) (rest : List Char)
    (hds : ∀ c ∈ ds, c.isDigit = true) :
    (ds ++ '\n' :: rest).takeWhile Char.isDigit = ds ∧
      (ds ++ '\n' :: rest).drop ds.length = '\n' :: rest := by
  constructor
  · induction ds with
    | nil => rfl
    | cons d ds' ih =>
      rw [List.cons_append, List.takeWhile_cons_of_pos (hds d (List.mem_cons_self _ _))]
      rw [ih (fun c hc => hds c (List.mem_cons_of_mem _ hc))]
  · exact List.drop_left ds ('\n' :: rest)

lemma countUnits_exact (p : List Char) :
    ∀ rest : List Char, countUnits (p ++ rest) (utf16Len p) = (p.length, utf16Len p) := by
  induction p with
  | nil =>
    intro rest
    show countUnits rest 0 = (0, 0)
    cases rest <;> rfl
  | cons c p' ih =>
    intro rest
    have hu : utf16UnitLen c = 1 ∨ utf16UnitLen c = 2 := by
      unfold utf16UnitLen
      by_cases h : 0xFFFF < c.toNat <;> simp [h]
    have hlen : utf16Len (c :: p') = utf16UnitLen c + utf16Len p' := by
      simp [utf16Len]
    rw [List.cons_append, hlen]
    obtain ⟨t, ht⟩ : ∃ t, utf16UnitLen c + utf16Len p' = t + 1 := ⟨utf16Len p' + (utf16UnitLen c - 1), by omega⟩
    rw [ht]
    show (let u := utf16UnitLen c;
      if t + 1 < u then (0, 0)
      else
        let r := countUnits (p' ++ rest) (t + 1 - u)
        (r.1 + 1, r.2 + u)) = (p'.length + 1, t + 1)
    have hnot : ¬ (t + 1 < utf16UnitLen c) := by omega
    simp only [if_neg hnot]
    have ht' : t + 1 - utf16UnitLen c = utf16Len p' := by omega
    rw [ht', ih rest]
    have : utf16Len p' + utf16UnitLen c = t + 1 := by omega
    rw [Prod.mk.injEq]
    exact ⟨rfl, this⟩

lemma pyStrip_newline (p : List Char) (_hne : p ≠ [])
    (hhead : ∀ c, p.head? = some c → isPySpace c = false)
    (hlast : ∀ c, p.getLast? = some c → isPySpace c = false) :
    pyStrip ('\n' :: p) = p := by
  unfold pyStrip
  have h1 : ('\n' :: p).dropWhile isPySpace = p.dropWhile isPySpace :=
    List.dropWhile_cons_of_pos (by rfl)
  have h2 : p.dropWhile isPySpace = p := by
    cases hp : p with
    | nil => rfl
    | cons c p' =>
      exact List.dropWhile_cons_of_neg (by
        simp only [Bool.not_eq_true]
        exact hhead c (by rw [hp]; rfl))
  rw [h1, h2]
  have h3 : p.reverse.dropWhile isPySpace = p.reverse := by
    cases hr : p.reverse with
    | nil => rfl
    | cons c rp =>
      refine List.dropWhile_cons_of_neg ?_
      simp only [Bool.not_eq_true]
      refine hlast c ?_
      rw [← List.head?_reverse, hr]
      rfl
  rw [h3, List.reverse_reverse]

lemma parse_frames_aux_step (parse : List Char → Option Json) (fuel : Nat)
    (p : List Char) (v : Json) (E : List Char)
    (hp : p ≠ [])
    (hhead : ∀ c, p.head? = some c → isPySpace c = false)
    (hlast : ∀ c, p.getLast? = some c → isPySpace c = false)
    (hparse : parse p = some v) :
    parse_frames_aux parse (fuel + 1) (encode_frame p ++ E) =
      (frameContribution v ++ (parse_frames_aux parse fuel E).1,
        (parse_frames_aux parse fuel E).2) := by
  obtain ⟨hdne, hdchars, hdval⟩ := natDigits_spec (1 + utf16Len p)
  obtain ⟨d0, ds', hds0⟩ : ∃ d0 ds', natDigits (1 + utf16Len p) = d0 :: ds' := by
    cases h : natDigits (1 + utf16Len p) with
    | nil => exact absurd h hdne
    | cons d0 ds' => exact ⟨d0, ds', rfl⟩
  have hform : encode_frame p ++ E = (d0 :: ds') ++ '\n' :: (p ++ E) := by
    rw [encode_frame, hds0]
    simp [List.append_assoc]
  have hdigits : ∀ c ∈ d0 :: ds', c.isDigit = true ∧ isPySpace c = false := by
    intro c hc
    exact hdchars c (by rw [hds0]; exact hc)
  have h_drop : ((d0 :: ds') ++ '\n' :: (p ++ E)).dropWhile isPySpace =
      (d0 :: ds') ++ '\n' :: (p ++ E) := by
    rw [List.cons_append]
    exact List.dropWhile_cons_of_neg (by
      simp only [Bool.not_eq_true]
      exact (hdigits d0 (List.mem_cons_self _ _)).2)
  have h_empty : ((d0 :: ds') ++ '\n' :: (p ++ E)).isEmpty = false := by
    rw [List.cons_append]
    rfl
  obtain ⟨h_take, h_dropn⟩ := takeWhile_digits_append (d0 :: ds') (p ++ E)
    (fun c hc => (hdigits c hc).1)
  have h_dempty : (d0 :: ds').isEmpty = false := rfl
  have h_units : digitsToNat (d0 :: ds') = 1 + utf16Len p := by
    rw [← hds0]
    exact hdval
  have hL : utf16Len ('\n' :: p) = 1 + utf16Len p := by
    simp [utf16Len, utf16UnitLen]
  have h_count : countUnits ('\n' :: (p ++ E)) (1 + utf16Len p) =
      (('\n' :: p).length, 1 + utf16Len p) := by
    have := countUnits_exact ('\n' :: p) E
    rw [hL] at this
    rw [← List.cons_append]
    rw [this]
  have h_take2 : ('\n' :: (p ++ E)).take ('\n' :: p).length = '\n' :: p := by
    rw [← List.cons_append]
    exact List.take_left _ _
  have h_drop2 : ('\n' :: (p ++ E)).drop ('\n' :: p).length = E := by
    rw [← List.cons_append]
    exact List.drop_left _ _
  have h_chunk : pyStrip (('\n' :: (p ++ E)).take ('\n' :: p).length) = p := by
    rw [h_take2]
    exact pyStrip_newline p hp hhead hlast
  have h_cempty : p.isEmpty = false := by
    cases p with
    | nil => exact absurd rfl hp
    | cons c p' => rfl
  rw [hform]
  simp only [parse_frames_aux, h_drop, h_empty, Bool.false_eq_true, if_false, h_take,
    h_dempty, h_dropn, h_units, h_count]
  simp only [Nat.lt_irrefl, if_false, h_chunk, h_cempty, h_drop2, hparse,
    Bool.false_eq_true]

lemma parse_frames_aux_encode (parse : List Char → Option Json)
    (frames : List (List Char × Json)) :
    ∀ fuel, frames.length < fuel →
      (∀ pv ∈ frames, pv.1 ≠ [] ∧
        (∀ c, pv.1.head? = some c → isPySpace c = false) ∧
        (∀ c, pv.1.getLast? = some c → isPySpace c = false) ∧
        parse pv.1 = some pv.2) →
      parse_frames_aux parse fuel (encode_frames (frames.map Prod.fst)) =
        ((frames.map (fun pv => frameContribution pv.2)).flatten, []) := by
  induction frames with
  | nil =>
    intro fuel hf _
    obtain ⟨f, rfl⟩ : ∃ f, fuel = f + 1 := ⟨fuel - 1, by omega⟩
    rfl
  | cons pv rest ih =>
    intro fuel hf hgood
    obtain ⟨f, rfl⟩ : ∃ f, fuel = f + 1 := ⟨fuel - 1, by omega⟩
    have hg := hgood pv (List.mem_cons_self _ _)
    have hE : encode_frames ((pv :: rest).map Prod.fst) =
        encode_frame pv.1 ++ encode_frames (rest.map Prod.fst) := by
      simp [encode_frames]
    rw [hE, parse_frames_aux_step parse f pv.1 pv.2 _ hg.1 hg.2.1 hg.2.2.1 hg.2.2.2]
    have hfr : rest.length < f := by
      have := hf
      simp only [List.length_cons] at this
      omega
    rw [ih f hfr (fun q hq => hgood q (List.mem_cons_of_mem _ hq))]
    simp

lemma encode_frame_head (p : List Char) (E : List Char) :
    ∃ d0 tail, encode_frame p ++ E = d0 :: tail ∧ d0.isDigit = true ∧
      isPySpace d0 = false := by
  obtain ⟨hdne, hdchars, -⟩ := natDigits_spec (1 + utf16Len p)
  cases hds : natDigits (1 + utf16Len p) with
  | nil => exact absurd hds hdne
  | cons d0 ds' =>
    refine ⟨d0, ds' ++ '\n' :: p ++ E, ?_, ?_, ?_⟩
    · rw [encode_frame, hds]
      simp
    · exact (hdchars d0 (by rw [hds]; exact List.mem_cons_self _ _)).1
    · exact (hdchars d0 (by rw [hds]; exact List.mem_cons_self _ _)).2

/-- C3 (amended): encoding JSON payloads as `<L>\n<json>` frames with `L`
counting the separator newline plus the UTF-16 code units of the payload
(non-BMP characters counting as 2 units), concatenating, and decoding with
`_parse_stream_parts` reproduces the payloads' values in order, a JSON list
contributing its elements and any other value itself; the frame decoder
consumes the whole input. -/
theorem C3_frame_decoder_roundtrip (parse : List Char → Option Json)
    (frames : List (List Char × Json))
    (hgood : ∀ pv ∈ frames, pv.1 ≠ [] ∧
      (∀ c, pv.1.head? = some c → isPySpace c = false) ∧
      (∀ c, pv.1.getLast? = some c → isPySpace c = false) ∧
      parse pv.1 = some pv.2)
    (hne : (frames.map (fun pv => frameContribution pv.2)).flatten ≠ []) :
    parse_length_prefixed_frames parse (encode_frames (frames.map Prod.fst)) =
      ((frames.map (fun pv => frameContribution pv.2)).flatten, []) ∧
    parse_stream_parts parse (encode_frames (frames.map Prod.fst)) =
      (frames.map (fun pv => frameContribution pv.2)).flatten := by
  have hlenge : frames.length ≤ (encode_frames (frames.map Prod.fst)).length := by
    clear hgood hne
    induction frames with
    | nil => simp [encode_frames]
    | cons pv rest ih =>
      have hE : encode_frames ((pv :: rest).map Prod.fst) =
          encode_frame pv.1 ++ encode_frames (rest.map Prod.fst) := by
        simp [encode_frames]
      rw [hE, List.length_append]
      have h1 : 1 ≤ (encode_frame pv.1).length := by
        simp only [encode_frame, List.length_append, List.length_cons]
        omega
      simp only [List.length_cons]
      omega
  have hmain := parse_frames_aux_encode parse frames
    ((encode_frames (frames.map Prod.fst)).length + 1) (by omega) hgood
  refine ⟨hmain, ?_⟩
  cases hfr : frames with
  | nil =>
    subst hfr
    simp at hne
  | cons pv rest =>
    subst hfr
    obtain ⟨d0, tail, hform, hd0dig, hd0ws⟩ :=
      encode_frame_head pv.1 (encode_frames (rest.map Prod.fst))
    have hE : encode_frames ((pv :: rest).map Prod.fst) =
        encode_frame pv.1 ++ encode_frames (rest.map Prod.fst) := by
      simp [encode_frames]
    have hcons : encode_frames ((pv :: rest).map Prod.fst) = d0 :: tail := by
      rw [hE, hform]
    have hnopfx : ((")]\x7d'".toList).isPrefixOf
        (encode_frames ((pv :: rest).map Prod.fst))) = false := by
      rw [hcons]
      show ((')' :: "]\x7d'".toList).isPrefixOf (d0 :: tail)) = false
      have hneq : (')' == d0) = false := by
        rw [beq_eq_false_iff_ne]
        intro h
        rw [← h] at hd0dig
        exact absurd hd0dig (by decide)
      simp [List.isPrefixOf, hneq]
    have hnows : (encode_frames ((pv :: rest).map Prod.fst)).dropWhile isPySpace =
        encode_frames ((pv :: rest).map Prod.fst) := by
      rw [hcons]
      exact List.dropWhile_cons_of_neg (by simp [hd0ws])
    have hfe : (((pv :: rest).map (fun pv => frameContribution pv.2)).flatten).isEmpty =
        false := by
      cases hfl : ((pv :: rest).map (fun pv => frameContribution pv.2)).flatten with
      | nil => exact absurd hfl hne
      | cons x xs => rfl
    unfold parse_stream_parts
    simp only [List.map_cons] at hmain hcons hnopfx hnows hfe ⊢
    simp only [hnopfx, Bool.false_eq_true, if_false, hnows, parse_length_prefixed_frames,
      hmain]
    simp only [hfe, Bool.false_eq_true, if_false]

/-- A concrete JSON parser covering exactly the texts the counterexample and
witness inputs produce (consistent with `orjson.loads` on those inputs: every
other queried slice, such as the misaligned `"[1"`, is invalid JSON). -/
def toyParse : List Char → Option Json := fun s =>
  if s = "[1]".toList then some (.arr [.num 1])
  else if s = "[2]".toList then some (.arr [.num 2])
  else if s = "[1,2]".toList then some (.arr [.num 1, .num 2])
  else if s = ['\"', '😀', '\"'] then some (.str ['😀'])
  else none

/-- C3 counterexample: with the claim's length convention — `L` counting the
UTF-16 units of the JSON payload only — two frames `[1]` and `[2]` decode to
`[2]` alone (the decoder counts the separator newline into the budget,
mis-slices the first frame, recovers zero frames and falls back to the
line parser), not to the original values `1, 2`. -/
theorem C3_frame_decoder_roundtrip_counterexample :
    toyParse ("[1]".toList) = some (Json.arr [Json.num 1]) ∧
    toyParse ("[2]".toList) = some (Json.arr [Json.num 2]) ∧
    utf16Len ("[1]".toList) = 3 ∧ utf16Len ("[2]".toList) = 3 ∧
    parse_stream_parts toyParse
        (encode_frame_claimed ("[1]".toList) ++ encode_frame_claimed ("[2]".toList)) =
      [Json.num 2] ∧
    [Json.num 2] ≠ [Json.num 1, Json.num 2] := by
  refine ⟨rfl, rfl, rfl, rfl, rfl, ?_⟩
  intro h
  injection h with h1 h2
  exact List.noConfusion h2

/-- The witness frames: an ASCII list payload and a non-BMP (surrogate-pair)
string payload. -/
def c3WitnessFrames : List (List Char × Json) :=
  [("[1,2]".toList, Json.arr [Json.num 1, Json.num 2]),
    (['\"', '😀', '\"'], Json.str ['😀'])]

/-- Concrete instance of the C3 round-trip theorem, with one payload holding
a surrogate-pair character (😀 counts as 2 UTF-16 units). -/
theorem C3_frame_decoder_roundtrip_witness :
    parse_length_prefixed_frames toyParse (encode_frames (c3WitnessFrames.map Prod.fst)) =
      ((c3WitnessFrames.map (fun pv => frameContribution pv.2)).flatten, []) ∧
    parse_stream_parts toyParse (encode_frames (c3WitnessFrames.map Prod.fst)) =
      (c3WitnessFrames.map (fun pv => frameContribution pv.2)).flatten :=
  C3_frame_decoder_roundtrip toyParse c3WitnessFrames
    (by
      intro pv hpv
      rcases List.mem_cons.mp hpv with h | h
      · subst h
        refine ⟨by decide, ?_, ?_, rfl⟩
        · intro c h
          have hc : '[' = c := by injection h
          rw [← hc]
          decide
        · intro c h
          have hc : ']' = c := by injection h
          rw [← hc]
          decide
      · rcases List.mem_cons.mp h with h' | h'
        · subst h'
          refine ⟨by decide, ?_, ?_, rfl⟩
          · intro c h
            have hc : '\"' = c := by injection h
            rw [← hc]
            decide
          · intro c h
            have hc : '\"' = c := by injection h
            rw [← hc]
            decide
        · exact absurd h' (List.not_mem_nil pv))
    (fun h => List.noConfusion h)

end ImagenManager
